import Mathlib

/-!
Verification development for the CyberScope log-analysis core.

The definitions below are a shallow embedding, in Lean 4, of the Python code in
src/enhanced_preprocessing.py and src/enhanced_model.py:

* clean_log_message      — the message normalizer (lowercase, six regex
                           substitutions, whitespace collapse);
* extract_temporal_features — the temporal feature extractor;
* encode_categorical_features — the label-encoder management
                           (sklearn LabelEncoder semantics: fit sorts the
                           distinct values, transform maps a value to its
                           position in classes_);
* preprocess_logs        — the feature assembly, text-backend choice and
                           scaler protocol;
* train_classification_models, predict_log_level, detect_anomalies,
  hyperparameter_tuning, save_models, load_models — the model bank.

Machine-level details that the claims do not touch (numpy array layout, pickle
bytes, the inner workings of sklearn estimators) are abstracted as opaque
payloads or function parameters; every control-flow and string-manipulation
decision taken by the repository code is reproduced faithfully.

Regex modelling note: Python `re` character classes are modelled over ASCII
(the log corpus is ASCII); `\w` is [a-zA-Z0-9_], `\s` is the six ASCII
whitespace characters, `str.lower` is ASCII lowercasing.  `re.sub` scans the
input left to right, tries a match at each position, and on success emits the
replacement and resumes after the matched text; word boundaries are evaluated
against the original string.  The scanners below implement exactly that, with
a fuel argument (fuel = length of the remaining input + 1 always suffices,
each step consumes at least one character) so that they are structurally
recursive and kernel-computable.
-/

/-- Character is an ASCII digit, Python regex class d. -/
def isDigitCh (c : Char) : Bool := '0' ≤ c && c ≤ '9'

/-- Character is an ASCII lowercase letter. -/
def isLowerCh (c : Char) : Bool := 'a' ≤ c && c ≤ 'z'

/-- Character is an ASCII uppercase letter. -/
def isUpperCh (c : Char) : Bool := 'A' ≤ c && c ≤ 'Z'

/-- Character is an ASCII letter. -/
def isAlphaCh (c : Char) : Bool := isLowerCh c || isUpperCh c

/-- Python regex class w over ASCII: letters, digits, underscore. -/
def isWordCh (c : Char) : Bool := isAlphaCh c || isDigitCh c || c = '_'

/-- Python regex class s over ASCII: space, tab, newline, CR, VT, FF. -/
def isSpaceCh (c : Char) : Bool :=
  c = ' ' || c = '\t' || c = '\n' || c = '\x0d' || c = '\x0b' || c = '\x0c'

/-- Lowercase hexadecimal digit: the class [a-f0-9] of the UUID pattern. -/
def isHexCh (c : Char) : Bool := isDigitCh c || ('a' ≤ c && c ≤ 'f')

/-- Class [a-zA-Z0-9._%+-], the local part of the e-mail pattern. -/
def isLocalCh (c : Char) : Bool :=
  isAlphaCh c || isDigitCh c || c = '.' || c = '_' || c = '%' || c = '+' || c = '-'

/-- Class [a-zA-Z0-9.-], the domain part of the e-mail pattern. -/
def isDomCh (c : Char) : Bool := isAlphaCh c || isDigitCh c || c = '.' || c = '-'

/-- ASCII lowercasing of one character, as Python str.lower does on ASCII. -/
def lowerCh (c : Char) : Char := if isUpperCh c then Char.ofNat (c.toNat + 32) else c

/-- Whether the previous character (none at string start) counts as a word
character, for evaluating a regex word boundary. -/
def prevIsWord : Option Char → Bool
  | none => false
  | some c => isWordCh c

/-- A regex word boundary sits between the previous character and the next
one exactly when their word-character statuses differ. -/
def atBoundary (prev : Option Char) (cur : Char) : Bool :=
  prevIsWord prev != isWordCh cur

/-- Consume exactly n characters satisfying p, returning the rest. -/
def chompN (p : Char → Bool) : Nat → List Char → Option (List Char)
  | 0, cs => some cs
  | n + 1, [] => if n = 0 then none else none
  | n + 1, c :: cs => if p c then chompN p n cs else none

/-- Consume one fixed character, returning the rest. -/
def chompCh (x : Char) : List Char → Option (List Char)
  | [] => none
  | c :: cs => if c = x then some cs else none

/-- Greedily consume at least one character satisfying p (regex p+),
returning the count consumed and the rest. -/
def chompPlus (p : Char → Bool) (cs : List Char) : Option (Nat × List Char) :=
  let run := cs.takeWhile p
  if run.length = 0 then none else some (run.length, cs.drop run.length)

/-- Match of the timestamp pattern d{4}-d{2}-d{2}[Ts]d{2}:d{2}:d{2} at the
current position; returns the number of characters matched (always 19). -/
def matchTS (cs : List Char) : Option Nat := do
  let r ← chompN isDigitCh 4 cs
  let r ← chompCh '-' r
  let r ← chompN isDigitCh 2 r
  let r ← chompCh '-' r
  let r ← chompN isDigitCh 2 r
  let r ← (match r with
           | [] => none
           | c :: rest => if c = 'T' || isSpaceCh c then some rest else none)
  let r ← chompN isDigitCh 2 r
  let r ← chompCh ':' r
  let r ← chompN isDigitCh 2 r
  let r ← chompCh ':' r
  let _ ← chompN isDigitCh 2 r
  pure 19

/-- After a match whose last character is a word character, the trailing word
boundary requires the next character to be absent or a non-word character. -/
def closesWord : List Char → Bool
  | [] => true
  | c :: _ => !isWordCh c

/-- Match of the IP pattern b d+ [.] d+ [.] d+ [.] d+ b at the current
position (prev is the character just before it). -/
def matchIP (prev : Option Char) (cs : List Char) : Option Nat := do
  if prevIsWord prev then none else
  let (n1, r) ← chompPlus isDigitCh cs
  let r ← chompCh '.' r
  let (n2, r) ← chompPlus isDigitCh r
  let r ← chompCh '.' r
  let (n3, r) ← chompPlus isDigitCh r
  let r ← chompCh '.' r
  let (n4, r) ← chompPlus isDigitCh r
  if closesWord r then pure (n1 + n2 + n3 + n4 + 3) else none

/-- Match of the UUID pattern b [a-f0-9]{8}(-[a-f0-9]{4}){3}-[a-f0-9]{12} b. -/
def matchUUID (prev : Option Char) (cs : List Char) : Option Nat := do
  if prevIsWord prev then none else
  let r ← chompN isHexCh 8 cs
  let r ← chompCh '-' r
  let r ← chompN isHexCh 4 r
  let r ← chompCh '-' r
  let r ← chompN isHexCh 4 r
  let r ← chompCh '-' r
  let r ← chompN isHexCh 4 r
  let r ← chompCh '-' r
  let r ← chompN isHexCh 12 r
  if closesWord r then pure 36 else none

/-- Match of the bare-number pattern b d+ b. -/
def matchNUM (prev : Option Char) (cs : List Char) : Option Nat := do
  if prevIsWord prev then none else
  let (n, r) ← chompPlus isDigitCh cs
  if closesWord r then pure n else none

/-- Greedy run of letters of length ≥ 2 followed by a word boundary: the
[a-zA-Z]{2,}b tail of the e-mail pattern.  Shrinking the greedy run always
places a letter (a word character) right after it, so backtracking inside the
run can never satisfy the boundary; the match succeeds only in full. -/
def tldOK (cs : List Char) : Bool :=
  let run := cs.takeWhile isAlphaCh
  2 ≤ run.length && closesWord (cs.drop run.length)

/-- Search, from the longest domain split downwards (the regex + is greedy),
for a position d ≥ 1 in the domain run with a dot at index d followed by a
valid top-level-domain tail.  run is the greedy [a-zA-Z0-9.-]+ run, rest the
input after it; d starts at run.length - 1 and decreases. -/
def emailSplit (run rest : List Char) : Nat → Option Nat
  | 0 => none
  | d + 1 =>
    if d + 1 < run.length && run.getD (d + 1) ' ' = '.'
        && tldOK (run.drop (d + 2) ++ rest) then
      some (d + 1)
    else emailSplit run rest d

/-- Match of the e-mail pattern b [loc]+ @ [dom]+ [.] [a-zA-Z]{2,} b.  The
local class excludes the at-sign and the domain class contains the dot, so the
only backtracking the Python engine performs is over the split of the greedy
domain run into domain, dot and top-level domain; emailSplit reproduces it. -/
def matchEMAIL (prev : Option Char) (cs : List Char) : Option Nat := do
  let _ ← (match cs with
           | [] => none
           | c :: _ => if isLocalCh c && atBoundary prev c then some () else none)
  let (nl, r) ← chompPlus isLocalCh cs
  let r ← chompCh '@' r
  let run := r.takeWhile isDomCh
  let rest := r.drop run.length
  if run.length = 0 then none else
  let d ← emailSplit run rest run.length
  let tlen := ((run.drop (d + 1) ++ rest).takeWhile isAlphaCh).length
  pure (nl + 1 + d + 1 + tlen)

/-- The ten literal alternatives of the opaque-identifier pattern, in the
order the source lists them. -/
def idAlternatives : List (List Char) :=
  [('u' :: "ser_".toList), ('o' :: "rder_".toList), ('s' :: "ess_".toList),
   ('r' :: "eq_".toList), ('l' :: "og_".toList), ('c' :: "lient_".toList),
   ('s' :: "rv_".toList), ('v' :: "ol_".toList), ('q' :: "_".toList),
   ('c' :: "ache_".toList)]

/-- Try the identifier alternatives in order: the first literal alternative
that is a prefix of the input and is followed by at least one word character
matches (no two alternatives can both be literal prefixes of the input). -/
def idAltMatch (cs : List Char) : List (List Char) → Option Nat
  | [] => none
  | p :: ps =>
    if p.isPrefixOf cs then
      let tail := cs.drop p.length
      let run := tail.takeWhile isWordCh
      if run.length = 0 then idAltMatch cs ps else some (p.length + run.length)
    else idAltMatch cs ps

/-- Match of the identifier pattern b (user_|order_|sess_|req_|log_|client_|
srv_|vol_|q_|cache_) w+ at the current position. -/
def matchID (prev : Option Char) (cs : List Char) : Option Nat :=
  if prevIsWord prev then none else idAltMatch cs idAlternatives

/-- One pass of re.sub with a fixed replacement: at each position try the
matcher; on success emit the replacement and resume after the matched text
(the word-boundary context for later positions is the original character that
precedes them).  Structural recursion on fuel; every step consumes at least
one input character, so fuel = length + 1 suffices. -/
def substGo (m : Option Char → List Char → Option Nat) (repl : List Char) :
    Nat → Option Char → List Char → List Char
  | 0, _, cs => cs
  | _ + 1, _, [] => []
  | fuel + 1, prev, c :: cs =>
    match m prev (c :: cs) with
    | some n =>
      if 0 < n then
        repl ++ substGo m repl fuel (some ((c :: cs).getD (n - 1) c)) ((c :: cs).drop n)
      else c :: substGo m repl fuel (some c) cs
    | none => c :: substGo m repl fuel (some c) cs

/-- re.sub of one pattern over a whole character list. -/
def substAll (m : Option Char → List Char → Option Nat) (repl : List Char)
    (cs : List Char) : List Char :=
  substGo m repl (cs.length + 1) none cs

/-- Collapse every maximal whitespace run to a single space: re.sub of s+
with a space. -/
def collapseWS : Nat → List Char → List Char
  | 0, cs => cs
  | _ + 1, [] => []
  | fuel + 1, c :: cs =>
    if isSpaceCh c then ' ' :: collapseWS fuel (cs.dropWhile isSpaceCh)
    else c :: collapseWS fuel cs

/-- Python str.strip over ASCII whitespace. -/
def stripWS (cs : List Char) : List Char :=
  ((cs.dropWhile isSpaceCh).reverse.dropWhile isSpaceCh).reverse

/-- clean_log_message from src/enhanced_preprocessing.py: lowercase, then the
six re.sub substitutions in source order (timestamps, IPs, UUIDs, bare
numbers, e-mails, prefixed identifiers), then whitespace collapse and strip.
The pandas isna / non-string guard is cleanOpt below. -/
def clean_log_message (s : String) : String :=
  let m1 := (s.toList).map lowerCh
  let m2 := substAll (fun _ cs => matchTS cs) ("[TIMESTAMP]".toList) m1
  let m3 := substAll matchIP ("[IP]".toList) m2
  let m4 := substAll matchUUID ("[UUID]".toList) m3
  let m5 := substAll matchNUM ("[NUM]".toList) m4
  let m6 := substAll matchEMAIL ("[EMAIL]".toList) m5
  let m7 := substAll matchID ("[ID]".toList) m6
  String.mk (stripWS (collapseWS (m7.length + 1) m7))

/-- Missing or non-string messages are cleaned to the empty string. -/
def cleanOpt : Option String → String
  | none => ""
  | some s => clean_log_message s

/-!
Temporal feature extraction (src/enhanced_preprocessing.py, lines 81-102).
A parsed timestamp is modelled by its whole-day index since a Monday epoch
and its minutes past midnight; the pandas datetime accessors dt.hour,
dt.dayofweek (Monday = 0) and dt.floor of one hour are the three functions
below.  extract_temporal_features is applied row-wise to a parsed series.
-/

/-- A successfully parsed timestamp: day index since a Monday epoch, minutes
past midnight (less than 1440). -/
structure Timestamp where
  day : Nat
  minute : Nat
deriving DecidableEq, Repr

/-- pandas dt.hour of a parsed timestamp. -/
def hourOf (t : Timestamp) : Nat := t.minute / 60

/-- pandas dt.dayofweek of a parsed timestamp (Monday = 0). -/
def dayOfWeekOf (t : Timestamp) : Nat := t.day % 7

/-- pandas dt.floor to the hour, as an absolute hour index. -/
def floorHourOf (t : Timestamp) : Nat := t.day * 24 + t.minute / 60

/-- The row of derived temporal columns; the flags are the 0 or 1 integers
produced by astype int. -/
structure TemporalFeatures where
  hour : Nat
  day_of_week : Nat
  is_weekend : Nat
  is_business_hours : Nat
  is_night : Nat
deriving DecidableEq, Repr

/-- extract_temporal_features from src/enhanced_preprocessing.py: hour and
day-of-week components, weekend flag (dayofweek ≥ 5), business-hours flag
(9 ≤ hour ≤ 17) and night flag (hour ≥ 22 or hour ≤ 6). -/
def extract_temporal_features (t : Timestamp) : TemporalFeatures where
  hour := hourOf t
  day_of_week := dayOfWeekOf t
  is_weekend := if 5 ≤ dayOfWeekOf t then 1 else 0
  is_business_hours := if 9 ≤ hourOf t ∧ hourOf t ≤ 17 then 1 else 0
  is_night := if 22 ≤ hourOf t ∨ hourOf t ≤ 6 then 1 else 0

/-!
Categorical encoding (src/enhanced_preprocessing.py, lines 170-201).
sklearn LabelEncoder semantics: fit stores classes_ as the sorted distinct
values (numpy unique), and transform maps each value to its position in
classes_ (the value-to-index table enumerates classes_).  The source keeps a
dict of encoders per column; on a column that already has an encoder it
rebuilds classes_ as list(known_values) + list(new_values) where both
operands are Python sets, whose enumeration order is arbitrary.  That
enumeration is the setList parameter below: given the canonical listing of a
set's elements it returns the order Python happens to enumerate them in, so
it is some permutation of its input.
-/

/-- Lookup in an association list keyed by strings, first match wins —
Python dict access. -/
def alookup {α : Type} : List (String × α) → String → Option α
  | [], _ => none
  | (c, v) :: rest, col => if c = col then some v else alookup rest col

/-- Python dict assignment: replace the value of an existing key in place,
append a new key at the end. -/
def aset {α : Type} : List (String × α) → String → α → List (String × α)
  | [], col, x => [(col, x)]
  | (c, v) :: rest, col, x =>
    if c = col then (col, x) :: rest else (c, v) :: aset rest col x

/-- Lexicographic comparison of character lists by code point, the order
numpy uses to sort string arrays. -/
def lexLe : List Char → List Char → Bool
  | [], _ => true
  | _ :: _, [] => false
  | a :: as, b :: bs => if a < b then true else if a = b then lexLe as bs else false

/-- Lexicographic comparison of strings. -/
def strLe (a b : String) : Bool := lexLe a.toList b.toList

/-- Insert a value into a lexicographically sorted list of strings. -/
def insertSorted (v : String) : List String → List String
  | [] => [v]
  | x :: xs => if strLe v x then v :: x :: xs else x :: insertSorted v xs

/-- Insertion sort of strings in ascending lexicographic order. -/
def sortStrs : List String → List String
  | [] => []
  | x :: xs => insertSorted x (sortStrs xs)

/-- numpy unique over strings: the distinct values in ascending
lexicographic order. -/
def np_unique (values : List String) : List String := sortStrs values.dedup

/-- Position of a value in the classes_ list: the integer the fitted
LabelEncoder's transform assigns to it.  (The real transform raises on a
value absent from classes_; every transform call in the source is made only
after the value has been added, so the absent case is never exercised.) -/
def idxIn (v : String) : List String → Nat
  | [] => 0
  | c :: cs => if c = v then 0 else idxIn v cs + 1

/-- The label-encoder dict: column name to the encoder's classes_ list. -/
abbrev Encoders := List (String × List String)

/-- encode_categorical_features from src/enhanced_preprocessing.py, one
categorical column at a time.  First fit of a column: classes_ is the sorted
distinct values and every value is transformed to its position.  A later
call with an existing encoder collects the values not yet in classes_;
if there are any, classes_ is rebuilt as list(known_values) +
list(new_values) — two Python set enumerations, modelled by setList — and
then every value is transformed against the rebuilt classes_. -/
def encodeColumn (setList : List String → List String) (st : Encoders)
    (col : String) (vals : List String) : Encoders × List Nat :=
  match alookup st col with
  | none =>
    let cls := np_unique vals
    (aset st col cls, vals.map (fun v => idxIn v cls))
  | some known =>
    let newRaw := vals.dedup.filter (fun v => !known.contains v)
    if newRaw.isEmpty then
      (st, vals.map (fun v => idxIn v known))
    else
      let cls := setList known ++ setList newRaw
      (aset st col cls, vals.map (fun v => idxIn v cls))

/-- The loop of encode_categorical_features over the configured categorical
columns: a column absent from the data frame is skipped, the others produce
a col_encoded column; the encoder dict is threaded through. -/
def encode_categorical_features (setList : List String → List String)
    (st : Encoders) (df : List (String × List String)) :
    List String → Encoders × List (String × List Nat)
  | [] => (st, [])
  | col :: cols =>
    match alookup df col with
    | none => encode_categorical_features setList st df cols
    | some vals =>
      let (st', enc) := encodeColumn setList st col vals
      let (st'', out) := encode_categorical_features setList st' df cols
      (st'', (col ++ "_encoded", enc) :: out)

/-!
Anomalous-pattern flags (src/enhanced_preprocessing.py, lines 203-234) and
the preprocessing pipeline preprocess_logs (lines 236-336).

The log table is modelled from the parsed data frame onward: a record has a
parsed timestamp, level, source, message and the optional anomaly_type
column of the synthetic data.  CSV reading and the .npy/.pkl files are I/O
and are outside the embedding; load_processed_data below models the restore
of the pickled preprocessing objects.

External learned components are parameters: the TF-IDF vectorizer and the
BERT encoder are opaque functions supplied in a TextBackends record (the
source batches BERT inputs 32 at a time and concatenates the batch outputs,
which is invisible at this level), and train_test_split is an opaque split
function.  StandardScaler state is the per-column mean and variance vectors;
a transformed entry is kept symbolically as the pair (value minus column
mean, column variance) because the actual scaled number divides by the
square root of the variance, which leaves the rationals; equal symbolic
matrices have equal numeric images.
-/

/-- One row of the parsed log table. -/
structure LogRecord where
  timestamp : Timestamp
  level : String
  source : String
  message : String
  anomaly_type : Option String
deriving DecidableEq, Repr

/-- Insert into an ascending list of naturals. -/
def insertNat (v : Nat) : List Nat → List Nat
  | [] => [v]
  | x :: xs => if v ≤ x then v :: x :: xs else x :: insertNat v xs

/-- Ascending insertion sort of naturals. -/
def sortNats : List Nat → List Nat
  | [] => []
  | x :: xs => insertNat x (sortNats xs)

/-- pandas Series.quantile(0.95) with linear interpolation over a list of
counts; none on an empty series (pandas yields NaN there, and every
comparison against NaN is false). -/
def quantile95 (l : List Nat) : Option ℚ :=
  let s := sortNats l
  match s with
  | [] => none
  | _ =>
    let n := s.length
    let pos : ℚ := ((n : ℚ) - 1) * 95 / 100
    let i := 95 * (n - 1) / 100
    let frac : ℚ := pos - (i : ℚ)
    let vi : ℚ := (s.getD i 0 : ℚ)
    let vip : ℚ := (s.getD (i + 1) 0 : ℚ)
    some (vi + frac * (vip - vi))

/-- Increment the count of a key in an association list, appending new keys. -/
def bumpCount : List (Nat × Nat) → Nat → List (Nat × Nat)
  | [], k => [(k, 1)]
  | (c, n) :: rest, k =>
    if c = k then (c, n + 1) :: rest else (c, n) :: bumpCount rest k

/-- Per-hour counts of ERROR-level records: the groupby of the source over
dt.floor of one hour restricted to level == ERROR.  Only hours with at least
one error appear.  (pandas sorts the group keys; only the multiset of counts
and the key set are consumed downstream, so insertion order is adequate.) -/
def errorHourCounts (recs : List LogRecord) : List (Nat × Nat) :=
  recs.foldl
    (fun acc r =>
      if r.level = ("ERROR") then bumpCount acc (floorHourOf r.timestamp) else acc)
    []

/-- The hours whose error count strictly exceeds the 0.95 quantile of the
per-hour error counts; empty when there are no error records at all. -/
def highErrorHours (recs : List LogRecord) : List Nat :=
  match quantile95 ((errorHourCounts recs).map Prod.snd) with
  | none => []
  | some q =>
    ((errorHourCounts recs).filter (fun kv => q < (kv.2 : ℚ))).map Prod.fst

/-- The three flag columns added by detect_anomalous_patterns. -/
structure AnomalyFlags where
  is_anomaly : Nat
  unusual_timing : Nat
  high_error_period : Nat
deriving DecidableEq, Repr

/-- detect_anomalous_patterns from src/enhanced_preprocessing.py: is_anomaly
marks a non-null anomaly_type (all zero when the synthetic column is absent,
which coincides with every record carrying none); unusual_timing marks night
hours; high_error_period marks records falling in an hour whose ERROR count
exceeds the 0.95 quantile of per-hour ERROR counts. -/
def detect_anomalous_patterns (recs : List LogRecord) : List AnomalyFlags :=
  recs.map fun r =>
    { is_anomaly := if r.anomaly_type.isSome then 1 else 0
      unusual_timing :=
        if 22 ≤ hourOf r.timestamp ∨ hourOf r.timestamp ≤ 6 then 1 else 0
      high_error_period :=
        if floorHourOf r.timestamp ∈ highErrorHours recs then 1 else 0 }

/-- Fitted StandardScaler state: per-column mean and variance. -/
structure ScalerFit where
  mean : List ℚ
  variance : List ℚ
deriving DecidableEq, Repr

/-- Column j of a row-major rational matrix. -/
def columnOf (rows : List (List ℚ)) (j : Nat) : List ℚ :=
  rows.map (fun r => r.getD j 0)

/-- Arithmetic mean (0 for an empty list, a case the pipeline never feeds). -/
def meanQ (l : List ℚ) : ℚ := l.sum / (l.length : ℚ)

/-- Population variance, as StandardScaler computes it. -/
def varQ (l : List ℚ) : ℚ :=
  (l.map (fun x => (x - meanQ l) ^ 2)).sum / (l.length : ℚ)

/-- StandardScaler fit: record the per-column means and variances of the
given matrix. -/
def standardFit (rows : List (List ℚ)) : ScalerFit :=
  let w := (rows.headD []).length
  { mean := (List.range w).map (fun j => meanQ (columnOf rows j))
    variance := (List.range w).map (fun j => varQ (columnOf rows j)) }

/-- StandardScaler transform against a fitted state, kept symbolic: the
entry for column j is the pair (x - mean j, variance j); the numeric scaled
value is the first component divided by the square root of the second (by 1
when the variance is zero), so equal symbolic matrices scale equally. -/
def standardTransform (f : ScalerFit) (rows : List (List ℚ)) :
    List (List (ℚ × ℚ)) :=
  rows.map fun r =>
    (List.range f.mean.length).map fun j =>
      (r.getD j 0 - f.mean.getD j 0, f.variance.getD j 0)

/-- The opaque external text models: TF-IDF fit_transform (returning the
fitted vectorizer handle and the matrix), TF-IDF transform against a fitted
handle, and the BERT embedding of a message list. -/
structure TextBackends where
  tfidfFit : List String → Nat × List (List ℚ)
  tfidfTransform : Nat → List String → List (List ℚ)
  bertEmbed : List String → List (List ℚ)

/-- The preprocessor's mutable state (the fields of EnhancedLogPreprocessor
that the pipeline reads or writes): per-column label encoders, the fitted
TF-IDF vectorizer if any, the scaler state if fitted (StandardScaler() is
created unfitted in init), and whether the BERT model loaded. -/
structure PreState where
  label_encoders : Encoders
  tfidf : Option Nat
  scaler : Option ScalerFit
  use_bert : Bool

/-- get_bert_embeddings from src/enhanced_preprocessing.py: when the BERT
model failed to initialize the call logs a warning and returns the empty
array; otherwise it returns the batched embeddings. -/
def get_bert_embeddings (ext : TextBackends) (st : PreState)
    (messages : List String) : List (List ℚ) :=
  if !st.use_bert then [] else ext.bertEmbed messages

/-- get_tfidf_features from src/enhanced_preprocessing.py: first call fits
the vectorizer and stores it, later calls reuse the stored vectorizer. -/
def get_tfidf_features (ext : TextBackends) (st : PreState)
    (messages : List String) : PreState × List (List ℚ) :=
  match st.tfidf with
  | none =>
    let ftm := ext.tfidfFit messages
    ({ st with tfidf := some ftm.1 }, ftm.2)
  | some ts => (st, ext.tfidfTransform ts messages)

/-- numpy hstack of two row-major matrices with equal row counts. -/
def hstack (a b : List (List ℚ)) : List (List ℚ) :=
  List.zipWith (fun r s => r ++ s) a b

/-- The feature-assembly phase of preprocess_logs: clean the messages,
derive the temporal columns, the anomaly flags and the encoded categorical
columns, build X_basic in the source's fixed column order (hour,
day_of_week, is_weekend, is_business_hours, is_night, level_encoded,
source_encoded, unusual_timing, high_error_period), pick BERT embeddings
when both the argument flag and the loaded model allow it — falling back to
TF-IDF when the embedding matrix comes back empty — and return the updated
state, the combined matrix and the target vector level_encoded. -/
def assembleX (ext : TextBackends) (setList : List String → List String)
    (st : PreState) (recs : List LogRecord) (useBert : Bool) :
    PreState × (List (List ℚ) × List Nat) :=
  let cleaned := recs.map (fun r => clean_log_message r.message)
  let temporal := recs.map (fun r => extract_temporal_features r.timestamp)
  let flags := detect_anomalous_patterns recs
  let df := [(("level"), recs.map (fun r => r.level)),
             (("source"), recs.map (fun r => r.source))]
  let encOut := encode_categorical_features setList st.label_encoders df
                  [("level"), ("source")]
  let lvl := (alookup encOut.2 ("level_encoded")).getD []
  let src := (alookup encOut.2 ("source_encoded")).getD []
  let X_basic := (List.range recs.length).map fun i =>
    let t := temporal.getD i ⟨0, 0, 0, 0, 0⟩
    let f := flags.getD i ⟨0, 0, 0⟩
    ([t.hour, t.day_of_week, t.is_weekend, t.is_business_hours, t.is_night,
      lvl.getD i 0, src.getD i 0, f.unusual_timing, f.high_error_period].map
      (fun n => (n : ℚ)))
  let st1 := { st with label_encoders := encOut.1 }
  if useBert && st1.use_bert then
    let bertM := get_bert_embeddings ext st1 cleaned
    if !bertM.isEmpty then (st1, (hstack X_basic bertM, lvl))
    else
      let tf := get_tfidf_features ext st1 cleaned
      (tf.1, (hstack X_basic tf.2, lvl))
  else
    let tf := get_tfidf_features ext st1 cleaned
    (tf.1, (hstack X_basic tf.2, lvl))

/-- The result quadruple of train_test_split: X_train, X_test, y_train,
y_test over symbolically scaled rows. -/
abbrev SplitOut :=
  List (List (ℚ × ℚ)) × List (List (ℚ × ℚ)) × List Nat × List Nat

/-- preprocess_logs from src/enhanced_preprocessing.py, from the parsed
table onward: assemble the combined feature matrix, fit_transform the
scaler on it (the scaler object is refit here on the whole pre-split
matrix), then hand the scaled matrix and target to train_test_split (an
opaque parameter: fixed seed, stratified).  Saving the processed arrays is
I/O and outside the state. -/
def preprocess_logs (ext : TextBackends) (setList : List String → List String)
    (split : List (List (ℚ × ℚ)) → List Nat → SplitOut)
    (st : PreState) (recs : List LogRecord) (useBert : Bool) :
    PreState × SplitOut :=
  let axy := assembleX ext setList st recs useBert
  let fit := standardFit axy.2.1
  let Xs := standardTransform fit axy.2.1
  ({ axy.1 with scaler := some fit }, split Xs axy.2.2)

/-- The pickled preprocessing objects restored by load_processed_data:
label encoders, TF-IDF vectorizer, scaler. -/
structure SavedObjects where
  label_encoders : Encoders
  tfidf : Option Nat
  scaler : ScalerFit

/-- load_processed_data from src/enhanced_preprocessing.py, state part:
the pickled encoder dict, vectorizer and scaler replace the current ones;
nothing is refit. -/
def load_processed_data (saved : SavedObjects) (st : PreState) : PreState :=
  { st with
      label_encoders := saved.label_encoders
      tfidf := saved.tfidf
      scaler := some saved.scaler }

/-!
The model bank (src/enhanced_model.py).  A trained sklearn estimator is an
opaque record of its callable surface: predict, and the optional
predict_proba and decision_function that the source probes with hasattr.
The bank state mirrors EnhancedLogAnalysisModel: two name-keyed dicts of
models, the performance report and the is_trained flag.  Training calls the
estimators' fit, whose success or failure is outside the embedding and
enters as an Except-valued parameter per model name, as does the
cross-validation scoring and the grid search.
-/

/-- The callable surface of a trained estimator. -/
structure SkModel where
  predict : List (List ℚ) → List Int
  predict_proba : Option (List (List ℚ) → List (List ℚ))
  decision_function : Option (List (List ℚ) → List ℚ)

/-- The state of EnhancedLogAnalysisModel. -/
structure ModelBank where
  classification_models : List (String × SkModel)
  anomaly_models : List (String × SkModel)
  model_performance : List (String × ℚ)
  is_trained : Bool

/-- The freshly initialized bank: empty dicts, not trained. -/
def emptyBank : ModelBank := ⟨[], [], [], false⟩

/-- The key list of a name-keyed dict. -/
def keysOf {α : Type} (l : List (String × α)) : List String := l.map Prod.fst

/-- Whether an Except carries a success. -/
def exOk {ε α : Type} : Except ε α → Bool
  | .ok _ => true
  | .error _ => false

/-- The three classifier configurations of train_classification_models, in
the dict order of the source. -/
def classifierNames : List String :=
  [("random_forest"), ("logistic_regression"), ("mlp_classifier")]

/-- The per-model error message the source logs on a caught exception. -/
def trainFailMsg (name e : String) : String :=
  ("Failed to train ") ++ name ++ (": ") ++ e

/-- One iteration of the training loop: fit the named model; on success
store it in classification_models and then run cross-validation (whose own
failure is caught by the same handler and logged, the stored model staying
in place); on failure log and move on. -/
def trainClsStep (fit : String → Except String SkModel)
    (cv : String → Except String ℚ) (acc : ModelBank × List String)
    (name : String) : ModelBank × List String :=
  match fit name with
  | .ok m =>
    let bank' :=
      { acc.1 with
          classification_models := aset acc.1.classification_models name m }
    match cv name with
    | .ok _ => (bank', acc.2)
    | .error e => (bank', acc.2 ++ [trainFailMsg name e])
  | .error e => (acc.1, acc.2 ++ [trainFailMsg name e])

/-- train_classification_models from src/enhanced_model.py: train the three
configured classifiers in order, catching and logging each per-model
failure; returns the classification_models dict together with the logged
error messages. -/
def train_classification_models (fit : String → Except String SkModel)
    (cv : String → Except String ℚ) (bank : ModelBank) :
    ModelBank × List String :=
  classifierNames.foldl (trainClsStep fit cv) (bank, [])

/-- The structured content of the not-found ValueError raised by the scorer:
the requested name and the list of available model names of that kind. -/
structure ModelNotFoundError where
  requested : String
  available : List String
deriving DecidableEq, Repr

/-- predict_log_level from src/enhanced_model.py: an unknown classifier
name raises the not-found error carrying the requested name and the list of
loaded classifier names; otherwise predict, and predict_proba when the
model has it. -/
def predict_log_level (bank : ModelBank) (features : List (List ℚ))
    (model_name : String) :
    Except ModelNotFoundError (List Int × Option (List (List ℚ))) :=
  match alookup bank.classification_models model_name with
  | none => .error ⟨model_name, keysOf bank.classification_models⟩
  | some m =>
    .ok (m.predict features,
         match m.predict_proba with
         | some f => some (f features)
         | none => none)

/-- detect_anomalies from src/enhanced_model.py: an unknown anomaly-model
name raises the not-found error carrying the requested name and the list of
loaded anomaly-model names; otherwise predict, and decision_function when
the model has it. -/
def detect_anomalies (bank : ModelBank) (features : List (List ℚ))
    (model_name : String) :
    Except ModelNotFoundError (List Int × Option (List ℚ)) :=
  match alookup bank.anomaly_models model_name with
  | none => .error ⟨model_name, keysOf bank.anomaly_models⟩
  | some m =>
    .ok (m.predict features,
         match m.decision_function with
         | some f => some (f features)
         | none => none)

/-- A hyperparameter value in a tuning grid. -/
inductive HParam where
  | nat (n : Nat)
  | rat (q : ℚ)
  | str (s : String)
  | noneVal
deriving DecidableEq, Repr

/-- The random-forest grid of hyperparameter_tuning. -/
def rf_param_grid : List (String × List HParam) :=
  [(("n_estimators"), [.nat 100, .nat 200, .nat 300]),
   (("max_depth"), [.nat 10, .nat 15, .nat 20, .noneVal]),
   (("min_samples_split"), [.nat 2, .nat 5, .nat 10]),
   (("min_samples_leaf"), [.nat 1, .nat 2, .nat 4])]

/-- The logistic-regression grid of hyperparameter_tuning. -/
def lr_param_grid : List (String × List HParam) :=
  [(("C"), [.rat (1 / 10), .rat 1, .rat 10, .rat 100]),
   (("penalty"), [.str ("l1"), .str ("l2")]),
   (("solver"), [.str ("liblinear"), .str ("saga")])]

/-- The result of a successful grid search: best parameters, best
cross-validation score, best estimator. -/
structure TuneOutcome where
  best_params : List (String × HParam)
  best_score : ℚ
  best_model : SkModel

/-- The try block of hyperparameter_tuning: run the grid search over the
chosen grid; on success register the best estimator under name_tuned and
return the results dict, on a caught failure return the empty dict with the
bank untouched. -/
def runTuning (grid_search : List (String × List HParam) →
      Except String TuneOutcome) (grid : List (String × List HParam))
    (bank : ModelBank) (model_name : String) :
    Option TuneOutcome × ModelBank :=
  match grid_search grid with
  | .ok out =>
    (some out,
     { bank with
         classification_models :=
           aset bank.classification_models (model_name ++ "_tuned")
             out.best_model })
  | .error _ => (none, bank)

/-- hyperparameter_tuning from src/enhanced_model.py: a grid is defined
only for random_forest and logistic_regression; any other name logs a
warning and returns the empty dict ahead of any grid search or bank
mutation. -/
def hyperparameter_tuning (grid_search : List (String × List HParam) →
      Except String TuneOutcome) (bank : ModelBank) (model_name : String) :
    Option TuneOutcome × ModelBank :=
  if model_name = ("random_forest") then
    runTuning grid_search rf_param_grid bank model_name
  else if model_name = ("logistic_regression") then
    runTuning grid_search lr_param_grid bank model_name
  else (none, bank)

/-!
The artifact store (src/enhanced_model.py, save_models and load_models).
The directory is a list of named files; a file holds either a pickled model
or the pickled performance dict.  save_models writes one file per model
plus the performance file under the shared prefix.  load_models globs the
matching filenames, recovers each model's name by splitting the filename on
the type separator, taking element 1 and deleting every occurrence of
.pkl — faithfully including the ways that parse can disagree with the name
the file was written under — and upserts the models into the bank, reads
the performance file if present, and marks the bank trained.
-/

/-- A file in the artifact directory. -/
inductive FileContent where
  | modelFile (m : SkModel)
  | perfFile (p : List (String × ℚ))

/-- The artifact directory: filenames to contents, in creation order. -/
abbrev FileStore := List (String × FileContent)

/-- save_models from src/enhanced_model.py: one classification file per
classifier, one anomaly file per detector, then the performance file. -/
def save_models (bank : ModelBank) (pfx : String) (store : FileStore) :
    FileStore :=
  store
    ++ bank.classification_models.map (fun nm =>
        (pfx ++ ("_classification_") ++ nm.1 ++ (".pkl"),
         FileContent.modelFile nm.2))
    ++ bank.anomaly_models.map (fun nm =>
        (pfx ++ ("_anomaly_") ++ nm.1 ++ (".pkl"), FileContent.modelFile nm.2))
    ++ [(pfx ++ ("_performance.pkl"), FileContent.perfFile bank.model_performance)]

/-- Python str.split with a separator, scanning left to right over
non-overlapping occurrences; fuel-driven (fuel = length + 1 suffices). -/
def splitGoL (sep : List Char) : Nat → List Char → List Char → List (List Char)
  | 0, s, acc => [acc.reverse ++ s]
  | _ + 1, [], acc => [acc.reverse]
  | fuel + 1, c :: cs, acc =>
    if sep.isPrefixOf (c :: cs) then
      acc.reverse :: splitGoL sep fuel ((c :: cs).drop sep.length) []
    else splitGoL sep fuel cs (c :: acc)

/-- Python str.split over character lists. -/
def splitOnL (sep s : List Char) : List (List Char) :=
  splitGoL sep (s.length + 1) s []

/-- Python str.replace, scanning left to right over non-overlapping
occurrences of old (nonempty at every use site); fuel-driven. -/
def replaceGoL (old new : List Char) : Nat → List Char → List Char
  | 0, s => s
  | _ + 1, [] => []
  | fuel + 1, c :: cs =>
    if old.isPrefixOf (c :: cs) && !old.isEmpty then
      new ++ replaceGoL old new fuel ((c :: cs).drop old.length)
    else c :: replaceGoL old new fuel cs

/-- Python str.replace over character lists. -/
def replaceAllL (old new s : List Char) : List Char :=
  replaceGoL old new (s.length + 1) s

/-- The model-name recovery of load_models:
filepath.split(separator)[1].replace of .pkl by the empty string. -/
def parseModelName (sep fname : List Char) : List Char :=
  replaceAllL ((".pkl").toList) [] ((splitOnL sep fname).getD 1 [])

/-- The glob pattern prefix-star-.pkl: the filename extends the fixed
prefix and ends in .pkl. -/
def globMatch (pre fname : String) : Bool :=
  pre.toList.isPrefixOf fname.toList
    && ((".pkl").toList).isSuffixOf fname.toList
    && pre.toList.length + 4 ≤ fname.toList.length

/-- load_models from src/enhanced_model.py: upsert every glob-matched
classification file under its parsed name, then every anomaly file, read
the performance file when present (its absence only logs a warning), and
set is_trained.  A non-model payload under a matched name cannot arise from
save_models and is skipped. -/
def load_models (bank : ModelBank) (pfx : String) (store : FileStore) :
    ModelBank :=
  let cfiles := store.filter (fun f => globMatch (pfx ++ ("_classification_")) f.1)
  let bank1 := cfiles.foldl
    (fun b f =>
      match f.2 with
      | .modelFile m =>
        { b with
            classification_models :=
              aset b.classification_models
                (String.mk (parseModelName (("_classification_").toList)
                  f.1.toList)) m }
      | .perfFile _ => b)
    bank
  let afiles := store.filter (fun f => globMatch (pfx ++ ("_anomaly_")) f.1)
  let bank2 := afiles.foldl
    (fun b f =>
      match f.2 with
      | .modelFile m =>
        { b with
            anomaly_models :=
              aset b.anomaly_models
                (String.mk (parseModelName (("_anomaly_").toList) f.1.toList)) m }
      | .perfFile _ => b)
    bank1
  let bank3 :=
    match alookup store (pfx ++ ("_performance.pkl")) with
    | some (.perfFile p) => { bank2 with model_performance := p }
    | _ => bank2
  { bank3 with is_trained := true }

/-- A placeholder trained estimator for concrete scenarios. -/
def probeModel : SkModel := ⟨fun _ => [], none, none⟩

/-!
Concrete objects used by the scenario theorems below.
-/

/-- Trivial text backends whose matrices ignore message content (one zero
column for TF-IDF, one constant column for BERT). -/
def exampleBackends : TextBackends :=
  ⟨fun msgs => (0, msgs.map (fun _ => [0])),
   fun _ msgs => msgs.map (fun _ => [0]),
   fun msgs => msgs.map (fun _ => [1])⟩

/-- The preprocessor state right after init when BERT failed to load. -/
def initPreState : PreState := ⟨[], none, none, false⟩

/-- A degenerate split that keeps everything in the training part. -/
def splitAll (Xs : List (List (ℚ × ℚ))) (y : List Nat) : SplitOut :=
  (Xs, [], y, [])

/-- A one-row log table observed at 10:00. -/
def recsA : List LogRecord :=
  [⟨⟨0, 600⟩, ("INFO"), ("app"), ("boot ok"), none⟩]

/-- A one-row log table observed at 23:00. -/
def recsB : List LogRecord :=
  [⟨⟨1, 1380⟩, ("WARN"), ("db"), ("disk slow"), none⟩]

/-- A fit outcome that fails exactly for the MLP configuration. -/
def failOneFit (name : String) : Except String SkModel :=
  if name = ("mlp_classifier") then .error ("misconfigured") else .ok probeModel

/-- A cross-validation scoring that always succeeds. -/
def okCv (_ : String) : Except String ℚ := .ok 1

/-- The bank component of one training-loop iteration: a fit failure leaves
the bank untouched, a fit success stores the model whatever the later
cross-validation does. -/
def bankStep (fit : String → Except String SkModel) (b : ModelBank)
    (name : String) : ModelBank :=
  match fit name with
  | .ok m => { b with classification_models := aset b.classification_models name m }
  | .error _ => b

/-- Strict lexicographic comparison of character lists. -/
def lexLt : List Char → List Char → Bool
  | [], [] => false
  | [], _ :: _ => true
  | _ :: _, [] => false
  | a :: as, b :: bs => if a < b then true else if a = b then lexLt as bs else false

/-- Strict lexicographic comparison of strings. -/
def strLt (a b : String) : Bool := lexLt a.toList b.toList

/-- The side condition under which load_models' filename parsing inverts
save_models' filename construction for one model name: the type separator
first occurs in the saved filename at its intended position (no earlier
occurrence arises inside the prefix or across it), it does not occur inside
name.pkl, and .pkl does not occur inside the bare name.  Every ordinary
name — one containing neither the separator token nor .pkl, under a prefix
that cannot absorb part of the separator — satisfies it, and it is
decidable. -/
def goodName (pfx sep n : String) : Prop :=
  ((∀ i, i < pfx.toList.length →
      (sep.toList).isPrefixOf
        (List.drop i pfx.toList
          ++ (sep.toList ++ (n.toList ++ (".pkl").toList))) = false) ∧
   (∀ i, i < (n.toList ++ (".pkl").toList).length →
      (sep.toList).isPrefixOf
        ((n.toList ++ (".pkl").toList).drop i) = false)) ∧
  (∀ i, i < n.toList.length →
    ((".pkl").toList).isPrefixOf
      (List.drop i n.toList ++ (".pkl").toList) = false)

instance goodNameDecidable (pfx sep n : String) :
    Decidable (goodName pfx sep n) := by
  unfold goodName
  infer_instance

/-- A bank holding the source's own model names, used as the round-trip
probe. -/
def roundtripBank : ModelBank :=
  ⟨[(("random_forest"), probeModel), (("logistic_regression"), probeModel)],
   [(("isolation_forest"), probeModel), (("one_class_svm"), probeModel)],
   [(("random_forest"), 9)], false⟩

/-- A bank whose single classifier name embeds the type-separator token. -/
def mangledBank : ModelBank :=
  ⟨[(("a_classification_b"), probeModel)], [], [], false⟩

/-- Probe messages exercising every substitution of the normalizer: bare
number, IP, timestamp, e-mail, opaque identifiers, UUID, whitespace runs,
and an already-normalized line. -/
def probeMessages : List String :=
  [("5"),
   ("User 42 logged in from 10.0.0.7"),
   ("2024-01-02 03:04:05 ERROR disk full"),
   ("mail admin@example.com about order_1234"),
   ("session 550e8400-e29b-41d4-a716-446655440000 closed"),
   ("cache_x MISS q_77"),
   ("  spaced   out  "),
   ("error connecting to host")]

/-!
Validation examples and theorems.  The examples check the normalizer and
encoder embeddings against the reference behavior of the Python code on
concrete inputs; the named theorems settle the specification claims.
-/
example : clean_log_message ("5") = "[NUM]" := by decide
example : clean_log_message ("[NUM]") = "[num]" := by decide
example : clean_log_message ("Hello World 42") = "hello world [NUM]" := by decide
example : clean_log_message ("a@b.co.uk") = "[EMAIL]" := by decide
example : clean_log_message ("1.2.3.4.5") = "[IP].[NUM]" := by decide
example : clean_log_message ("user_12 did X") = "[ID] did x" := by decide
example : clean_log_message ("x.y@z.com5 then a@b.com")
    = "x.y@z.com5 then [EMAIL]" := by decide
example : clean_log_message ("2024-01-02 03:04:05 error") = "[TIMESTAMP] error" := by
  decide
example : clean_log_message ("a1234-12-12 12:12:12") = "a[TIMESTAMP]" := by decide
example : clean_log_message (".a@b.co") = ".[EMAIL]" := by decide
example : clean_log_message ("12345678-1234-1234-1234-123456789abc") = "[UUID]" := by
  decide
example : clean_log_message ("Q_X hm") = "[ID] hm" := by decide
example : clean_log_message ("mail me@EX.com now") = "mail [EMAIL] now" := by decide
example : clean_log_message ("3.5 items") = "[NUM].[NUM] items" := by decide
example : clean_log_message ("cache_!5") = "cache_![NUM]" := by decide
example : clean_log_message ("1a@b.co2") = "1a@b.co2" := by decide
example : clean_log_message ("a@b.c") = "a@b.c" := by decide
example : clean_log_message ("a@@b.co") = "a@@b.co" := by decide
example : clean_log_message ("  spaced   out  ") = "spaced out" := by decide
example : clean_log_message ("user_") = "user_" := by decide
example : clean_log_message ("IP 10.0.0.1!") = "ip [IP]!" := by decide
example : clean_log_message ("e 1234-12-12T12:12:12Z")
    = "e [NUM]-[NUM]-12t12:[NUM]:12z" := by decide

example :
    encodeColumn id [] ("level") [("b"), ("a"), ("b")]
      = ([(("level"), [("a"), ("b")])], [1, 0, 1]) := by decide

example :
    (encodeColumn id [(("level"), [("a"), ("b")])] ("level") [("c"), ("a")]).2
      = [2, 0] := by decide

example :
    (encodeColumn List.reverse [(("level"), [("a"), ("b")])] ("level")
      [("c"), ("a")]).2 = [2, 1] := by decide

/-- C4: for every parseable timestamp, is_business_hours is 1 exactly when
the hour lies in 9..17 (in minutes: 540 ≤ m < 1080) and is_night is 1
exactly when the hour is at least 22 or at most 6 (minutes: m ≥ 1320 or
m < 420, wrapping midnight); in particular 22:00 and 06:59 are night while
21:59 and 07:00 are not. -/
theorem temporal_flag_thresholds :
    (∀ (t : Timestamp), t.minute < 1440 →
      (((extract_temporal_features t).is_business_hours = 1) ↔
        (540 ≤ t.minute ∧ t.minute < 1080)) ∧
      (((extract_temporal_features t).is_night = 1) ↔
        (1320 ≤ t.minute ∨ t.minute < 420))) ∧
    (extract_temporal_features ⟨0, 22 * 60⟩).is_night = 1 ∧
    (extract_temporal_features ⟨0, 21 * 60 + 59⟩).is_night = 0 ∧
    (extract_temporal_features ⟨0, 6 * 60 + 59⟩).is_night = 1 ∧
    (extract_temporal_features ⟨0, 7 * 60⟩).is_night = 0 := by
  refine ⟨?_, by decide, by decide, by decide, by decide⟩
  intro t ht
  constructor
  · simp only [extract_temporal_features, hourOf]
    constructor
    · intro h
      by_contra hc
      rw [if_neg (by omega)] at h
      omega
    · intro h
      rw [if_pos (by omega)]
  · simp only [extract_temporal_features, hourOf]
    constructor
    · intro h
      by_contra hc
      push_neg at hc
      rw [if_neg (by omega)] at h
      omega
    · intro h
      rw [if_pos (by omega)]

/-- C4 witness: the universal part of temporal_flag_thresholds instantiated
at 22:00 on a Thursday. -/
theorem temporal_flag_thresholds_witness :
    1320 < 1440 ∧
    ((((extract_temporal_features ⟨3, 1320⟩).is_business_hours = 1) ↔
        (540 ≤ 1320 ∧ 1320 < 1080)) ∧
      (((extract_temporal_features ⟨3, 1320⟩).is_night = 1) ↔
        (1320 ≤ 1320 ∨ 1320 < 420))) :=
  ⟨by decide, temporal_flag_thresholds.1 ⟨3, 1320⟩ (by decide)⟩

/-- C7: with any bank state, asking the scorer for a model name that is not
among the loaded classifiers (respectively anomaly detectors) fails with
the not-found error carrying the requested name and the list of available
model names of that kind, never with anything else. -/
theorem scorer_not_found_error :
    ∀ (bank : ModelBank) (features : List (List ℚ)) (name : String),
      (alookup bank.classification_models name = none →
        predict_log_level bank features name =
          .error ⟨name, keysOf bank.classification_models⟩) ∧
      (alookup bank.anomaly_models name = none →
        detect_anomalies bank features name =
          .error ⟨name, keysOf bank.anomaly_models⟩) := by
  intro bank features name
  constructor
  · intro h
    simp [predict_log_level, h]
  · intro h
    simp [detect_anomalies, h]

/-- C7 witness: scorer_not_found_error applied to the empty bank and the
name nonexistent. -/
theorem scorer_not_found_error_witness :
    alookup emptyBank.classification_models ("nonexistent") = none ∧
    predict_log_level emptyBank [] ("nonexistent") =
      .error ⟨("nonexistent"), []⟩ ∧
    alookup emptyBank.anomaly_models ("nonexistent") = none ∧
    detect_anomalies emptyBank [] ("nonexistent") =
      .error ⟨("nonexistent"), []⟩ :=
  ⟨rfl, (scorer_not_found_error emptyBank [] ("nonexistent")).1 rfl,
   rfl, (scorer_not_found_error emptyBank [] ("nonexistent")).2 rfl⟩

/-- C9: when the BERT model failed to initialize, get_bert_embeddings
returns the empty matrix for every message list instead of raising, and
preprocess_logs behaves identically whether or not BERT was requested — the
whole pipeline runs on TF-IDF text features. -/
theorem bert_fallback_to_tfidf :
    ∀ (ext : TextBackends) (st : PreState), st.use_bert = false →
      (∀ messages, get_bert_embeddings ext st messages = []) ∧
      (∀ setList split recs,
        preprocess_logs ext setList split st recs true =
          preprocess_logs ext setList split st recs false) := by
  intro ext st h
  refine ⟨fun messages => ?_, fun setList split recs => ?_⟩
  · simp [get_bert_embeddings, h]
  · simp [preprocess_logs, assembleX, h]

/-- C9 witness: bert_fallback_to_tfidf at the freshly initialized state
whose BERT load failed, with concrete backends, split and records. -/
theorem bert_fallback_to_tfidf_witness :
    initPreState.use_bert = false ∧
    get_bert_embeddings exampleBackends initPreState [("boot ok")] = [] ∧
    preprocess_logs exampleBackends id splitAll initPreState recsA true =
      preprocess_logs exampleBackends id splitAll initPreState recsA false :=
  ⟨rfl, (bert_fallback_to_tfidf exampleBackends initPreState rfl).1 _,
   (bert_fallback_to_tfidf exampleBackends initPreState rfl).2 _ _ _⟩

/-- C10: hyperparameter_tuning on any model name other than random_forest
and logistic_regression returns the empty result without raising and
returns the bank exactly as it was — in particular no name_tuned entry is
registered. -/
theorem tuning_unknown_model_noop :
    ∀ (gs : List (String × List HParam) → Except String TuneOutcome)
      (bank : ModelBank) (name : String),
      name ≠ ("random_forest") → name ≠ ("logistic_regression") →
      hyperparameter_tuning gs bank name = (none, bank) := by
  intro gs bank name h1 h2
  simp [hyperparameter_tuning, h1, h2]

/-- C10 witness: tuning_unknown_model_noop at the name mlp_classifier with
a failing grid search and the empty bank. -/
theorem tuning_unknown_model_noop_witness :
    ("mlp_classifier") ≠ ("random_forest") ∧
    ("mlp_classifier") ≠ ("logistic_regression") ∧
    hyperparameter_tuning (fun _ => .error ("no grid")) emptyBank
      ("mlp_classifier") = (none, emptyBank) :=
  ⟨by decide, by decide,
   tuning_unknown_model_noop _ emptyBank ("mlp_classifier") (by decide)
     (by decide)⟩

theorem trainClsStep_fst (fit : String → Except String SkModel)
    (cv : String → Except String ℚ) (acc : ModelBank × List String)
    (name : String) :
    (trainClsStep fit cv acc name).1 = bankStep fit acc.1 name := by
  unfold trainClsStep bankStep
  rcases fit name with e | m
  · rfl
  · rcases cv name with e' | q <;> rfl

theorem train_foldl_fst (fit : String → Except String SkModel)
    (cv : String → Except String ℚ) :
    ∀ (names : List String) (acc : ModelBank × List String),
      (names.foldl (trainClsStep fit cv) acc).1 = names.foldl (bankStep fit) acc.1 := by
  intro names
  induction names with
  | nil => intro acc; rfl
  | cons n ns ih =>
    intro acc
    rw [List.foldl_cons, List.foldl_cons, ih, trainClsStep_fst]

theorem train_foldl_log_prefix (fit : String → Except String SkModel)
    (cv : String → Except String ℚ) :
    ∀ (names : List String) (acc : ModelBank × List String),
      acc.2 <+: (names.foldl (trainClsStep fit cv) acc).2 := by
  intro names
  induction names with
  | nil => intro acc; exact List.prefix_refl _
  | cons n ns ih =>
    intro acc
    refine List.IsPrefix.trans ?_ (ih (trainClsStep fit cv acc n))
    unfold trainClsStep
    rcases fit n with e | m
    · exact List.prefix_append _ _
    · rcases cv n with e' | q
      · exact List.prefix_append _ _
      · exact List.prefix_refl _

/-- C6: train_classification_models catches each per-model fit failure,
logs it, excludes that model from the returned dict, and keeps every
successfully fitted model: over a fresh bank the returned model names are
exactly the configured names whose fit succeeded, every fit failure leaves
its logged message, and in the concrete scenario where the MLP
configuration alone fails the call still returns the two other trained
models together with the single recorded failure, raising nothing. -/
theorem training_isolates_failures :
    (∀ (fit : String → Except String SkModel) (cv : String → Except String ℚ),
      keysOf (train_classification_models fit cv
          emptyBank).1.classification_models
        = classifierNames.filter (fun n => exOk (fit n))) ∧
    (∀ (fit : String → Except String SkModel) (cv : String → Except String ℚ)
      (name e : String), name ∈ classifierNames → fit name = .error e →
      trainFailMsg name e ∈ (train_classification_models fit cv emptyBank).2) ∧
    keysOf (train_classification_models failOneFit okCv
        emptyBank).1.classification_models
      = [("random_forest"), ("logistic_regression")] ∧
    (train_classification_models failOneFit okCv emptyBank).2
      = [trainFailMsg ("mlp_classifier") ("misconfigured")] := by
  refine ⟨?_, ?_, by decide, by decide⟩
  · intro fit cv
    rw [train_classification_models, train_foldl_fst]
    rcases h1 : fit ("random_forest") with e1 | m1 <;>
      rcases h2 : fit ("logistic_regression") with e2 | m2 <;>
        rcases h3 : fit ("mlp_classifier") with e3 | m3 <;>
          simp [classifierNames, bankStep, h1, h2, h3, keysOf, aset, exOk,
            emptyBank]
  · intro fit cv name e hmem hfit
    rw [train_classification_models]
    simp only [classifierNames, List.mem_cons, List.not_mem_nil, or_false] at hmem
    rcases hmem with h | h | h <;> subst h
    · have hstep :
          (trainClsStep fit cv (emptyBank, []) ("random_forest")).2
            = [trainFailMsg ("random_forest") e] := by
        unfold trainClsStep
        rw [hfit]
        simp
      have hpre := train_foldl_log_prefix fit cv
        [("logistic_regression"), ("mlp_classifier")]
        (trainClsStep fit cv (emptyBank, []) ("random_forest"))
      rw [hstep] at hpre
      exact hpre.subset (by simp [classifierNames])
    · have hpre := train_foldl_log_prefix fit cv [("mlp_classifier")]
        (trainClsStep fit cv
          (trainClsStep fit cv (emptyBank, []) ("random_forest"))
          ("logistic_regression"))
      have hmem2 : trainFailMsg ("logistic_regression") e ∈
          (trainClsStep fit cv
            (trainClsStep fit cv (emptyBank, []) ("random_forest"))
            ("logistic_regression")).2 := by
        unfold trainClsStep
        rw [hfit]
        simp
      exact hpre.subset (by simpa [classifierNames] using hmem2)
    · have hmem3 : trainFailMsg ("mlp_classifier") e ∈
          (trainClsStep fit cv
            (trainClsStep fit cv
              (trainClsStep fit cv (emptyBank, []) ("random_forest"))
              ("logistic_regression"))
            ("mlp_classifier")).2 := by
        unfold trainClsStep
        rw [hfit]
        simp
      simpa [classifierNames] using hmem3

/-- C6 witness: training_isolates_failures instantiated at the scenario fit
where the MLP configuration fails with the message misconfigured. -/
theorem training_isolates_failures_witness :
    (("mlp_classifier") ∈ classifierNames) ∧
    failOneFit ("mlp_classifier") = .error ("misconfigured") ∧
    trainFailMsg ("mlp_classifier") ("misconfigured") ∈
      (train_classification_models failOneFit okCv emptyBank).2 :=
  ⟨by decide, rfl,
   training_isolates_failures.2.1 failOneFit okCv ("mlp_classifier")
     ("misconfigured") (by decide) rfl⟩

/-- C1 counterexample: the normalizer is not idempotent.  Cleaning the
string 5 yields the placeholder [NUM], but cleaning again first lowercases,
so the second pass returns [num]. -/
theorem clean_log_message_not_idempotent :
    clean_log_message (clean_log_message ("5")) ≠ clean_log_message ("5") := by
  decide

/-- C1 amended: a second application of clean_log_message differs only by
lowercasing the placeholder tokens the first inserted — on every probe
message, covering all six substitutions, it equals the ASCII lowercasing of
the first output — and idempotence does hold on every input the normalizer
leaves unchanged (already-normalized text), since the second application
then repeats the first. -/
theorem clean_log_message_idempotent_on_fixed_points :
    (∀ s : String, clean_log_message s = s →
      clean_log_message (clean_log_message s) = clean_log_message s) ∧
    (∀ s ∈ probeMessages,
      clean_log_message (clean_log_message s) =
        String.mk (((clean_log_message s).toList).map lowerCh)) := by
  refine ⟨fun s h => ?_, by decide⟩
  rw [h, h]

/-- C1 witness: clean_log_message_idempotent_on_fixed_points applied to an
already-normalized message, on which the normalizer is the identity. -/
theorem clean_log_message_idempotent_witness :
    clean_log_message ("error connecting to host") =
      ("error connecting to host") ∧
    clean_log_message (clean_log_message ("error connecting to host")) =
      clean_log_message ("error connecting to host") :=
  ⟨by decide,
   clean_log_message_idempotent_on_fixed_points.1
     ("error connecting to host") (by decide)⟩

/-- C2: evaluating encode_categorical_features at the failing input.  The
first fit on the values a, b stores classes a, b and encodes them 0, 1.  A
later call that sees the new value c rebuilds classes_ as
list(known_values) + list(new_values); both operands are unordered Python
sets, and under the legitimate enumeration that lists the known set in
reverse — List.reverse of the canonical listing, a permutation of it — the
rebuilt classes are b, a, c, so c gets the appended index 2 but a now
encodes to 1 instead of its original 0: the assigned index is not stable. -/
theorem encoder_extension_moves_assigned_index :
    (encodeColumn id [] ("level") [("a"), ("b")]).2 = [0, 1] ∧
    (encodeColumn id [] ("level") [("a"), ("b")]).1
      = [(("level"), [("a"), ("b")])] ∧
    (∀ l : List String, (List.reverse l).Perm l) ∧
    (encodeColumn List.reverse [(("level"), [("a"), ("b")])] ("level")
        [("c"), ("a")]).1
      = [(("level"), [("b"), ("a"), ("c")])] ∧
    (encodeColumn List.reverse [(("level"), [("a"), ("b")])] ("level")
        [("c"), ("a")]).2 = [2, 1] := by
  refine ⟨by decide, by decide, fun l => l.reverse_perm, by decide, by decide⟩

theorem lexLe_cons_iff (a b : Char) (as bs : List Char) :
    lexLe (a :: as) (b :: bs) = true ↔ (a < b ∨ (a = b ∧ lexLe as bs = true)) := by
  show (if a < b then true else if a = b then lexLe as bs else false) = true ↔ _
  split_ifs with h1 h2
  · simp [h1]
  · simp [h1, h2]
  · simp [h1, h2]

theorem lexLt_cons_iff (a b : Char) (as bs : List Char) :
    lexLt (a :: as) (b :: bs) = true ↔ (a < b ∨ (a = b ∧ lexLt as bs = true)) := by
  show (if a < b then true else if a = b then lexLt as bs else false) = true ↔ _
  split_ifs with h1 h2
  · simp [h1]
  · simp [h1, h2]
  · simp [h1, h2]

theorem lexLe_total : ∀ as bs : List Char, lexLe as bs = true ∨ lexLe bs as = true
  | [], _ => Or.inl rfl
  | _ :: _, [] => Or.inr rfl
  | a :: as, b :: bs => by
    rcases lt_trichotomy a b with h | h | h
    · exact Or.inl ((lexLe_cons_iff _ _ _ _).mpr (Or.inl h))
    · subst h
      rcases lexLe_total as bs with ih | ih
      · exact Or.inl ((lexLe_cons_iff _ _ _ _).mpr (Or.inr ⟨rfl, ih⟩))
      · exact Or.inr ((lexLe_cons_iff _ _ _ _).mpr (Or.inr ⟨rfl, ih⟩))
    · exact Or.inr ((lexLe_cons_iff _ _ _ _).mpr (Or.inl h))

theorem lexLe_trans :
    ∀ as bs cs : List Char,
      lexLe as bs = true → lexLe bs cs = true → lexLe as cs = true
  | [], _, _, _, _ => rfl
  | _ :: _, [], _, h1, _ => by cases h1
  | _ :: _, _ :: _, [], _, h2 => by cases h2
  | a :: as, b :: bs, c :: cs, h1, h2 => by
    rcases (lexLe_cons_iff _ _ _ _).mp h1 with hab | ⟨hab, h1'⟩ <;>
      rcases (lexLe_cons_iff _ _ _ _).mp h2 with hbc | ⟨hbc, h2'⟩
    · exact (lexLe_cons_iff _ _ _ _).mpr (Or.inl (lt_trans hab hbc))
    · exact (lexLe_cons_iff _ _ _ _).mpr (Or.inl (hbc ▸ hab))
    · exact (lexLe_cons_iff _ _ _ _).mpr (Or.inl (hab ▸ hbc))
    · exact (lexLe_cons_iff _ _ _ _).mpr
        (Or.inr ⟨hab.trans hbc, lexLe_trans as bs cs h1' h2'⟩)

theorem lexLe_antisymm :
    ∀ as bs : List Char, lexLe as bs = true → lexLe bs as = true → as = bs
  | [], [], _, _ => rfl
  | [], _ :: _, _, h2 => by cases h2
  | _ :: _, [], h1, _ => by cases h1
  | a :: as, b :: bs, h1, h2 => by
    rcases (lexLe_cons_iff _ _ _ _).mp h1 with hab | ⟨hab, h1'⟩ <;>
      rcases (lexLe_cons_iff _ _ _ _).mp h2 with hba | ⟨hba, h2'⟩
    · exact absurd hba (lt_asymm hab)
    · exact absurd (hba ▸ hab) (lt_irrefl b)
    · exact absurd (hab ▸ hba) (lt_irrefl b)
    · rw [hab, lexLe_antisymm as bs h1' h2']

theorem lexLt_iff :
    ∀ as bs : List Char, lexLt as bs = true ↔ (lexLe as bs = true ∧ as ≠ bs)
  | [], [] => by simp [lexLt, lexLe]
  | [], _ :: _ => by simp [lexLt, lexLe]
  | _ :: _, [] => by simp [lexLt, lexLe]
  | a :: as, b :: bs => by
    rw [lexLt_cons_iff, lexLe_cons_iff]
    rcases lt_trichotomy a b with h | h | h
    · have hne : (a :: as) ≠ (b :: bs) := by
        intro hc
        exact absurd ((List.cons.injEq _ _ _ _).mp hc).1 (ne_of_lt h)
      constructor
      · intro _
        exact ⟨Or.inl h, hne⟩
      · intro _
        exact Or.inl h
    · subst h
      simp only [lt_irrefl, false_or, true_and, ne_eq, List.cons.injEq,
        not_and]
      rw [lexLt_iff as bs]
    · constructor
      · rintro (hc | ⟨hc, _⟩)
        · exact absurd hc (lt_asymm h)
        · exact absurd (hc ▸ h) (lt_irrefl a)
      · rintro ⟨(hc | ⟨hc, _⟩), _⟩
        · exact absurd hc (lt_asymm h)
        · exact absurd (hc ▸ h) (lt_irrefl a)

theorem lexLt_of_le_ne {as bs : List Char} (h1 : lexLe as bs = true)
    (h2 : as ≠ bs) : lexLt as bs = true :=
  (lexLt_iff as bs).mpr ⟨h1, h2⟩

theorem not_lexLt_of_le {as bs : List Char} (h : lexLe as bs = true) :
    lexLt bs as = false := by
  by_contra hc
  rcases (lexLt_iff bs as).mp (by revert hc; cases lexLt bs as <;> simp)
    with ⟨h1, h2⟩
  exact h2 (lexLe_antisymm bs as h1 h)

theorem strLt_irrefl (v : String) : strLt v v = false := by
  unfold strLt
  apply not_lexLt_of_le
  induction v.toList with
  | nil => rfl
  | cons a as ih => exact (lexLe_cons_iff _ _ _ _).mpr (Or.inr ⟨rfl, ih⟩)

theorem strLe_refl (v : String) : strLe v v = true := by
  unfold strLe
  induction v.toList with
  | nil => rfl
  | cons a as ih => exact (lexLe_cons_iff _ _ _ _).mpr (Or.inr ⟨rfl, ih⟩)

theorem strLt_of_le_ne {a b : String} (h1 : strLe a b = true) (h2 : a ≠ b) :
    strLt a b = true :=
  lexLt_of_le_ne h1 (fun hc => h2 (String.ext hc))

theorem not_strLt_of_le {a b : String} (h : strLe a b = true) :
    strLt b a = false :=
  not_lexLt_of_le h

theorem insertSorted_perm (v : String) :
    ∀ l : List String, (insertSorted v l).Perm (v :: l) := by
  intro l
  induction l with
  | nil => exact List.Perm.refl _
  | cons x xs ih =>
    unfold insertSorted
    split_ifs with h
    · exact List.Perm.refl _
    · exact (ih.cons x).trans (List.Perm.swap v x xs)

theorem sortStrs_perm : ∀ l : List String, (sortStrs l).Perm l := by
  intro l
  induction l with
  | nil => exact List.Perm.refl _
  | cons x xs ih => exact (insertSorted_perm x (sortStrs xs)).trans (ih.cons x)

theorem pairwise_insertSorted (v : String) :
    ∀ l : List String, l.Pairwise (fun a b => strLe a b = true) →
      (insertSorted v l).Pairwise (fun a b => strLe a b = true) := by
  intro l
  induction l with
  | nil => intro _; simp [insertSorted]
  | cons x xs ih =>
    intro h
    rcases List.pairwise_cons.mp h with ⟨hx, hxs⟩
    unfold insertSorted
    split_ifs with hvx
    · refine List.pairwise_cons.mpr ⟨?_, h⟩
      intro b hb
      rcases List.mem_cons.mp hb with rfl | hb
      · exact hvx
      · exact lexLe_trans _ _ _ hvx (hx b hb)
    · refine List.pairwise_cons.mpr ⟨?_, ih hxs⟩
      intro b hb
      rcases List.mem_cons.mp ((insertSorted_perm v xs).mem_iff.mp hb)
        with rfl | hb
      · rcases lexLe_total (String.toList b) (String.toList x) with hc | hc
        · exact absurd hc (by simpa [strLe] using hvx)
        · exact hc
      · exact hx b hb

theorem pairwise_sortStrs :
    ∀ l : List String, (sortStrs l).Pairwise (fun a b => strLe a b = true) := by
  intro l
  induction l with
  | nil => exact List.Pairwise.nil
  | cons x xs ih => exact pairwise_insertSorted x (sortStrs xs) ih

theorem np_unique_nodup (values : List String) : (np_unique values).Nodup :=
  (sortStrs_perm values.dedup).nodup_iff.mpr (List.nodup_dedup values)

theorem mem_np_unique {v : String} {values : List String} (h : v ∈ values) :
    v ∈ np_unique values :=
  (sortStrs_perm values.dedup).mem_iff.mpr (List.mem_dedup.mpr h)

theorem idxIn_sorted :
    ∀ l : List String, l.Pairwise (fun a b => strLe a b = true) → l.Nodup →
      ∀ v : String, v ∈ l →
        idxIn v l = (l.filter (fun w => strLt w v)).length := by
  intro l
  induction l with
  | nil => intro _ _ v hv; cases hv
  | cons x xs ih =>
    intro hp hn v hv
    rcases List.pairwise_cons.mp hp with ⟨hx, hxs⟩
    rcases List.nodup_cons.mp hn with ⟨hnx, hnxs⟩
    by_cases hxv : x = v
    · subst hxv
      rw [idxIn, if_pos rfl, List.filter_cons, if_neg (by simp [strLt_irrefl])]
      have : xs.filter (fun w => strLt w x) = [] := by
        rw [List.filter_eq_nil_iff]
        intro w hw
        simp [not_strLt_of_le (hx w hw)]
      rw [this]
      rfl
    · have hvxs : v ∈ xs := by
        rcases List.mem_cons.mp hv with rfl | h
        · exact absurd rfl hxv
        · exact h
      rw [idxIn, if_neg hxv, List.filter_cons,
        if_pos (by simp [strLt_of_le_ne (hx v hvxs) hxv]), ih hxs hnxs v hvxs]
      simp

/-- C3 counterexample: on the first fit of a column the indices do not
follow first-seen order.  Fitting on the sequence b, a, b would then encode
it as 0, 1, 0, but the LabelEncoder sorts the distinct values, so the
encoding is 1, 0, 1. -/
theorem first_fit_ignores_first_seen_order :
    (encodeColumn id [] ("level") [("b"), ("a"), ("b")]).2 ≠ [0, 1, 0] := by
  decide

/-- C3 amended: on the first fit of a categorical column the k distinct
values receive indices 0..k-1 in ascending lexicographic (sorted) order,
not first-seen order: the stored classes are the sorted distinct values,
every value is encoded to its position there, and that position equals the
number of distinct values strictly below it. -/
theorem first_fit_sorted_order :
    ∀ (setList : List String → List String) (col : String)
      (values : List String) (v : String), v ∈ values →
      (encodeColumn setList [] col values).1 = [(col, np_unique values)] ∧
      (encodeColumn setList [] col values).2
        = values.map (fun w => idxIn w (np_unique values)) ∧
      idxIn v (np_unique values)
        = (values.dedup.filter (fun w => strLt w v)).length := by
  intro setList col values v hv
  refine ⟨by simp [encodeColumn, alookup, aset], by simp [encodeColumn, alookup], ?_⟩
  rw [idxIn_sorted (np_unique values) (pairwise_sortStrs _) (np_unique_nodup _)
    v (mem_np_unique hv)]
  exact ((sortStrs_perm values.dedup).filter _).length_eq

/-- C3 witness: first_fit_sorted_order at the first fit on b, a, b and the
value a. -/
theorem first_fit_sorted_order_witness :
    (("a") ∈ [("b"), ("a"), ("b")]) ∧
    (encodeColumn id [] ("level") [("b"), ("a"), ("b")]).1
      = [(("level"), np_unique [("b"), ("a"), ("b")])] ∧
    (encodeColumn id [] ("level") [("b"), ("a"), ("b")]).2
      = [("b"), ("a"), ("b")].map
          (fun w => idxIn w (np_unique [("b"), ("a"), ("b")])) ∧
    idxIn ("a") (np_unique [("b"), ("a"), ("b")])
      = ([("b"), ("a"), ("b")].dedup.filter (fun w => strLt w ("a"))).length :=
  ⟨by decide,
   (first_fit_sorted_order id ("level") [("b"), ("a"), ("b")] ("a")
       (by decide)).1,
   (first_fit_sorted_order id ("level") [("b"), ("a"), ("b")] ("a")
       (by decide)).2.1,
   (first_fit_sorted_order id ("level") [("b"), ("a"), ("b")] ("a")
       (by decide)).2.2⟩

theorem assembleX_scaler_irrelevant (ext : TextBackends)
    (setList : List String → List String) (le : Encoders) (otf : Option Nat)
    (sc sc' : Option ScalerFit) (ub : Bool) (recs : List LogRecord)
    (p : Bool) :
    (assembleX ext setList ⟨le, otf, sc, ub⟩ recs p).2
      = (assembleX ext setList ⟨le, otf, sc', ub⟩ recs p).2 := by
  unfold assembleX get_tfidf_features get_bert_embeddings
  cases otf <;> cases p <;> cases ub <;> first
    | rfl
    | (simp only []; split_ifs <;> rfl)

/-- C5 amended: preprocess_logs never reuses a previously fitted scaler —
each call refits it by fit_transform on the whole combined feature matrix,
assembled from all rows before the train/test split, so the stored scaler
state after a call is exactly the statistics of that full matrix and is
independent of whatever scaler state was held before; only
load_processed_data installs a previously fitted scaler unchanged. -/
theorem scaler_refit_every_call :
    (∀ (ext : TextBackends) (setList : List String → List String)
      (split : List (List (ℚ × ℚ)) → List Nat → SplitOut) (st : PreState)
      (recs : List LogRecord) (p : Bool),
      (preprocess_logs ext setList split st recs p).1.scaler
        = some (standardFit (assembleX ext setList st recs p).2.1)) ∧
    (∀ (ext : TextBackends) (setList : List String → List String)
      (split : List (List (ℚ × ℚ)) → List Nat → SplitOut)
      (st st' : PreState) (recs : List LogRecord) (p : Bool),
      st.label_encoders = st'.label_encoders → st.tfidf = st'.tfidf →
      st.use_bert = st'.use_bert →
      (preprocess_logs ext setList split st recs p).1.scaler
        = (preprocess_logs ext setList split st' recs p).1.scaler) ∧
    (∀ (saved : SavedObjects) (st : PreState),
      (load_processed_data saved st).scaler = some saved.scaler) := by
  refine ⟨fun ext setList split st recs p => rfl, ?_, fun saved st => rfl⟩
  intro ext setList split st st' recs p h1 h2 h3
  obtain ⟨le, otf, sc, ub⟩ := st
  obtain ⟨le', otf', sc', ub'⟩ := st'
  simp only at h1 h2 h3
  subst h1; subst h2; subst h3
  show some (standardFit (assembleX ext setList ⟨le, otf, sc, ub⟩ recs p).2.1)
    = some (standardFit (assembleX ext setList ⟨le, otf, sc', ub⟩ recs p).2.1)
  rw [assembleX_scaler_irrelevant ext setList le otf sc sc' ub recs p]

/-- C5 witness: scaler_refit_every_call applied to the fresh state and a
state that already holds a fitted scaler: on the same one-row table both
calls store the same refitted scaler. -/
theorem scaler_refit_every_call_witness :
    (preprocess_logs exampleBackends id splitAll initPreState recsA
        false).1.scaler
      = some (standardFit
          (assembleX exampleBackends id initPreState recsA false).2.1) ∧
    initPreState.label_encoders
        = ({ initPreState with scaler := some ⟨[0], [0]⟩ } :
            PreState).label_encoders ∧
    (preprocess_logs exampleBackends id splitAll initPreState recsA
        false).1.scaler
      = (preprocess_logs exampleBackends id splitAll
          { initPreState with scaler := some ⟨[0], [0]⟩ } recsA
          false).1.scaler :=
  ⟨scaler_refit_every_call.1 exampleBackends id splitAll initPreState recsA
     false,
   rfl,
   scaler_refit_every_call.2.1 exampleBackends id splitAll initPreState
     { initPreState with scaler := some ⟨[0], [0]⟩ } recsA false rfl rfl rfl⟩

/-- C5 counterexample: the fitted scaler is not reused unchanged by later
pipeline calls.  A first preprocess_logs call on a 10:00 record fits the
scaler; a second call on a 23:00 record leaves a different scaler state —
its first column mean moves from 10 to 23 — because every call refits on
its own full matrix. -/
theorem scaler_not_reused_on_later_call :
    (preprocess_logs exampleBackends id splitAll
        (preprocess_logs exampleBackends id splitAll initPreState recsA
          false).1 recsB false).1.scaler
      ≠ (preprocess_logs exampleBackends id splitAll initPreState recsA
          false).1.scaler := by
  intro h
  have h0 := congrArg
    (fun o : Option ScalerFit => (o.getD ⟨[], []⟩).mean.getD 0 0) h
  have h2 : meanQ [((23 : ℕ) : ℚ)] = meanQ [((10 : ℕ) : ℚ)] := h0
  simp only [meanQ, List.sum_cons, List.sum_nil, List.length_singleton] at h2
  norm_num at h2

theorem splitGoL_no_match (sep : List Char) :
    ∀ (b acc : List Char) (fuel : Nat), b.length < fuel →
      (∀ i, i < b.length → sep.isPrefixOf (b.drop i) = false) →
      splitGoL sep fuel b acc = [acc.reverse ++ b] := by
  intro b
  induction b with
  | nil =>
    intro acc fuel hf _
    match fuel, hf with
    | fuel + 1, _ => simp [splitGoL]
  | cons c cs ih =>
    intro acc fuel hf h
    match fuel, hf with
    | fuel + 1, hf =>
      have hx := h 0 (by simp)
      simp only [List.drop_zero] at hx
      rw [splitGoL, if_neg (by simp only [hx]; simp)]
      rw [ih (c :: acc) fuel (by simpa using hf)
        (fun i hi => by simpa using h (i + 1) (by simpa using hi))]
      simp

theorem splitGoL_found (sep : List Char) (hsep : sep ≠ []) (b : List Char) :
    ∀ (a acc : List Char) (fuel : Nat), (a ++ (sep ++ b)).length < fuel →
      (∀ i, i < a.length →
        sep.isPrefixOf (List.drop i a ++ (sep ++ b)) = false) →
      splitGoL sep fuel (a ++ (sep ++ b)) acc
        = (acc.reverse ++ a) :: splitGoL sep (fuel - (a.length + 1)) b [] := by
  intro a
  induction a with
  | nil =>
    intro acc fuel hf _
    match sep, hsep with
    | s0 :: srest, _ =>
      match fuel, hf with
      | fuel + 1, _ =>
        rw [List.nil_append, List.cons_append, splitGoL,
          if_pos (by
            rw [← List.cons_append]
            exact List.isPrefixOf_iff_prefix.mpr (List.prefix_append _ _)),
          ← List.cons_append, List.drop_left]
        simp
  | cons c a' ih =>
    intro acc fuel hf h
    match fuel, hf with
    | fuel + 1, hf =>
      have hx := h 0 (by simp)
      simp only [List.drop_zero, List.cons_append] at hx
      rw [List.cons_append, splitGoL, if_neg (by simp only [hx]; simp)]
      rw [ih (c :: acc) fuel (by simpa using hf)
        (fun i hi => by simpa using h (i + 1) (by simpa using hi))]
      simp only [List.reverse_cons, List.append_assoc, List.cons_append,
        List.nil_append, List.length_cons]
      congr 2
      omega

theorem splitOnL_clean (sep a b : List Char) (hsep : sep ≠ [])
    (h1 : ∀ i, i < a.length →
      sep.isPrefixOf (List.drop i a ++ (sep ++ b)) = false)
    (h2 : ∀ i, i < b.length → sep.isPrefixOf (b.drop i) = false) :
    splitOnL sep (a ++ sep ++ b) = [a, b] := by
  unfold splitOnL
  rw [List.append_assoc,
    splitGoL_found sep hsep b a [] ((a ++ (sep ++ b)).length + 1)
      (by omega) h1,
    splitGoL_no_match sep b []
      ((a ++ (sep ++ b)).length + 1 - (a.length + 1))
      (by
        have hs : 1 ≤ sep.length := by
          cases sep
          · exact absurd rfl hsep
          · simp
        simp only [List.length_append]
        omega)
      h2]
  simp

theorem replaceGoL_nil (old rep : List Char) :
    ∀ fuel : Nat, replaceGoL old rep fuel [] = [] := by
  intro fuel
  cases fuel <;> rfl

theorem replaceGoL_strip (old : List Char) (hold : old ≠ []) :
    ∀ (a : List Char) (fuel : Nat), (a ++ old).length < fuel →
      (∀ i, i < a.length → old.isPrefixOf (List.drop i a ++ old) = false) →
      replaceGoL old [] fuel (a ++ old) = a := by
  intro a
  induction a with
  | nil =>
    intro fuel hf _
    match old, hold with
    | o0 :: orest, _ =>
      match fuel, hf with
      | fuel + 1, _ =>
        rw [List.nil_append]
        have h1 : (o0 :: orest).isPrefixOf (o0 :: orest) = true :=
          List.isPrefixOf_iff_prefix.mpr List.prefix_rfl
        rw [replaceGoL, if_pos (by simp [h1]), List.drop_length,
          replaceGoL_nil]
        simp
  | cons c a' ih =>
    intro fuel hf h
    match fuel, hf with
    | fuel + 1, hf =>
      have hx := h 0 (by simp)
      simp only [List.drop_zero, List.cons_append] at hx
      rw [List.cons_append, replaceGoL, if_neg (by simp only [hx]; simp),
        ih fuel (by simpa using hf)
          (fun i hi => by simpa using h (i + 1) (by simpa using hi))]

theorem parseModelName_clean (sep pre name : List Char) (hsep : sep ≠ [])
    (h1 : ∀ i, i < pre.length →
      sep.isPrefixOf
        (List.drop i pre ++ (sep ++ (name ++ (".pkl").toList))) = false)
    (h2 : ∀ i, i < (name ++ (".pkl").toList).length →
      sep.isPrefixOf ((name ++ (".pkl").toList).drop i) = false)
    (h3 : ∀ i, i < name.length →
      ((".pkl").toList).isPrefixOf
        (List.drop i name ++ (".pkl").toList) = false) :
    parseModelName sep (pre ++ sep ++ (name ++ (".pkl").toList)) = name := by
  unfold parseModelName
  rw [splitOnL_clean sep pre (name ++ (".pkl").toList) hsep h1 h2]
  show replaceAllL ((".pkl").toList) [] (name ++ (".pkl").toList) = name
  unfold replaceAllL
  exact replaceGoL_strip ((".pkl").toList) (by decide) name
    ((name ++ (".pkl").toList).length + 1) (Nat.lt_succ_self _) h3

theorem strToList_append (a b : String) :
    (a ++ b).toList = a.toList ++ b.toList := rfl

theorem isPrefixOf_append_self (l r : List Char) :
    l.isPrefixOf (l ++ r) = true :=
  List.isPrefixOf_iff_prefix.mpr (List.prefix_append l r)

theorem isSuffixOf_append_self (l r : List Char) :
    l.isSuffixOf (r ++ l) = true := by
  unfold List.isSuffixOf
  rw [List.reverse_append, isPrefixOf_append_self]

theorem isPrefixOf_append_cancel (p x y : List Char) :
    (p ++ x).isPrefixOf (p ++ y) = x.isPrefixOf y := by
  induction p with
  | nil => rfl
  | cons c cs ih => simp [List.cons_append, List.isPrefixOf_cons₂_self, ih]

theorem globMatch_own (pfx sep n : String) :
    globMatch (pfx ++ sep) (pfx ++ sep ++ n ++ (".pkl")) = true := by
  unfold globMatch
  have e : (pfx ++ sep ++ n ++ (".pkl")).toList
      = ((pfx ++ sep).toList ++ n.toList) ++ (".pkl").toList := by
    simp [strToList_append, List.append_assoc]
  rw [e]
  have h1 : ((pfx ++ sep).toList).isPrefixOf
      (((pfx ++ sep).toList ++ n.toList) ++ (".pkl").toList) = true := by
    rw [List.append_assoc, isPrefixOf_append_self]
  rw [h1, isSuffixOf_append_self]
  simp [List.length_append]
  omega

theorem cls_anom_heads (z : List Char) :
    (("_classification_").toList).isPrefixOf ((("_anomaly_").toList) ++ z)
      = false := by
  have e1 : ("_classification_").toList
      = '_' :: 'c' :: ("lassification_").toList := rfl
  have e2 : ("_anomaly_").toList = '_' :: 'a' :: ("nomaly_").toList := rfl
  rw [e1, e2]
  simp [List.cons_append, List.isPrefixOf_cons₂]

theorem anom_cls_heads (z : List Char) :
    (("_anomaly_").toList).isPrefixOf ((("_classification_").toList) ++ z)
      = false := by
  have e1 : ("_classification_").toList
      = '_' :: 'c' :: ("lassification_").toList := rfl
  have e2 : ("_anomaly_").toList = '_' :: 'a' :: ("nomaly_").toList := rfl
  rw [e1, e2]
  simp [List.cons_append, List.isPrefixOf_cons₂]

theorem globMatch_cross_ca (pfx n : String) :
    globMatch (pfx ++ ("_classification_")) (pfx ++ ("_anomaly_") ++ n
      ++ (".pkl")) = false := by
  unfold globMatch
  have e : (pfx ++ ("_anomaly_") ++ n ++ (".pkl")).toList
      = pfx.toList ++ ((("_anomaly_").toList) ++ (n.toList ++ (".pkl").toList)) := by
    simp [strToList_append, List.append_assoc]
  rw [strToList_append, e, isPrefixOf_append_cancel, cls_anom_heads]
  simp

theorem globMatch_cross_ac (pfx n : String) :
    globMatch (pfx ++ ("_anomaly_")) (pfx ++ ("_classification_") ++ n
      ++ (".pkl")) = false := by
  unfold globMatch
  have e : (pfx ++ ("_classification_") ++ n ++ (".pkl")).toList
      = pfx.toList
          ++ ((("_classification_").toList) ++ (n.toList ++ (".pkl").toList)) := by
    simp [strToList_append, List.append_assoc]
  rw [strToList_append, e, isPrefixOf_append_cancel, anom_cls_heads]
  simp

theorem globMatch_cls_perf (pfx : String) :
    globMatch (pfx ++ ("_classification_")) (pfx ++ ("_performance.pkl"))
      = false := by
  unfold globMatch
  rw [strToList_append, strToList_append, isPrefixOf_append_cancel]
  rw [show ((("_classification_").toList).isPrefixOf
      (("_performance.pkl").toList)) = false from by decide]
  simp

theorem globMatch_anom_perf (pfx : String) :
    globMatch (pfx ++ ("_anomaly_")) (pfx ++ ("_performance.pkl"))
      = false := by
  unfold globMatch
  rw [strToList_append, strToList_append, isPrefixOf_append_cancel]
  rw [show ((("_anomaly_").toList).isPrefixOf
      (("_performance.pkl").toList)) = false from by decide]
  simp

theorem cls_fname_ne_perf (pfx n : String) :
    (pfx ++ ("_classification_") ++ n ++ (".pkl"))
      ≠ (pfx ++ ("_performance.pkl")) := by
  intro h
  have h2 := congrArg String.toList h
  simp only [strToList_append, List.append_assoc] at h2
  have h3 := List.append_cancel_left h2
  have e1 : ("_classification_").toList
      = '_' :: 'c' :: ("lassification_").toList := rfl
  have e2 : ("_performance.pkl").toList
      = '_' :: 'p' :: ("erformance.pkl").toList := rfl
  rw [e1, e2] at h3
  simp [List.cons_append] at h3

theorem anom_fname_ne_perf (pfx n : String) :
    (pfx ++ ("_anomaly_") ++ n ++ (".pkl"))
      ≠ (pfx ++ ("_performance.pkl")) := by
  intro h
  have h2 := congrArg String.toList h
  simp only [strToList_append, List.append_assoc] at h2
  have h3 := List.append_cancel_left h2
  have e1 : ("_anomaly_").toList = '_' :: 'a' :: ("nomaly_").toList := rfl
  have e2 : ("_performance.pkl").toList
      = '_' :: 'p' :: ("erformance.pkl").toList := rfl
  rw [e1, e2] at h3
  simp [List.cons_append] at h3

theorem alookup_append_right {α : Type} (l1 l2 : List (String × α))
    (k : String) (h : ∀ p ∈ l1, p.1 ≠ k) :
    alookup (l1 ++ l2) k = alookup l2 k := by
  induction l1 with
  | nil => rfl
  | cons p rest ih =>
    rw [List.cons_append, alookup, if_neg (h p (by simp))]
    exact ih (fun q hq => h q (by simp [hq]))

theorem aset_fresh_append {α : Type} :
    ∀ (l : List (String × α)) (k : String) (v : α), k ∉ keysOf l →
      aset l k v = l ++ [(k, v)] := by
  intro l
  induction l with
  | nil => intro k v _; rfl
  | cons p rest ih =>
    intro k v h
    rw [List.cons_append, aset, if_neg (by
      intro hc
      exact h (by simp [keysOf, hc]))]
    rw [ih k v (fun hc => h (by simp [keysOf] at hc ⊢; exact Or.inr hc))]

theorem keysOf_append {α : Type} (a b : List (String × α)) :
    keysOf (a ++ b) = keysOf a ++ keysOf b := List.map_append _ _ _

theorem foldl_aset_fresh {α : Type} :
    ∀ (models acc : List (String × α)),
      (keysOf models).Nodup → (∀ n ∈ keysOf models, n ∉ keysOf acc) →
      models.foldl (fun l nm => aset l nm.1 nm.2) acc = acc ++ models := by
  intro models
  induction models with
  | nil => intro acc _ _; simp
  | cons m ms ih =>
    intro acc hn hfresh
    rcases List.pairwise_cons.mp hn with ⟨hm, hns⟩
    rw [List.foldl_cons,
      aset_fresh_append acc m.1 m.2 (hfresh m.1 (List.mem_cons_self _ _)),
      ih (acc ++ [m]) hns (fun n hn2 => by
        rw [keysOf_append]
        simp only [List.mem_append]
        rintro (hc | hc)
        · exact hfresh n (List.mem_cons.mpr (Or.inr hn2)) hc
        · have : n = m.1 := by simpa [keysOf] using hc
          exact hm n hn2 this.symm)]
    simp

theorem bank_foldl_cls (models : List (String × SkModel)) :
    ∀ b : ModelBank,
      models.foldl (fun b nm =>
          { b with
              classification_models := aset b.classification_models nm.1 nm.2 })
          b
        = { b with
              classification_models :=
                models.foldl (fun l nm => aset l nm.1 nm.2)
                  b.classification_models } := by
  induction models with
  | nil => intro b; rfl
  | cons m ms ih =>
    intro b
    rw [List.foldl_cons, List.foldl_cons, ih]

theorem bank_foldl_anom (models : List (String × SkModel)) :
    ∀ b : ModelBank,
      models.foldl (fun b nm =>
          { b with anomaly_models := aset b.anomaly_models nm.1 nm.2 }) b
        = { b with
              anomaly_models :=
                models.foldl (fun l nm => aset l nm.1 nm.2)
                  b.anomaly_models } := by
  induction models with
  | nil => intro b; rfl
  | cons m ms ih =>
    intro b
    rw [List.foldl_cons, List.foldl_cons, ih]

theorem parse_fname (pfx sep n : String) (hsep : sep.toList ≠ [])
    (hg : goodName pfx sep n) :
    String.mk (parseModelName sep.toList
      ((pfx ++ sep ++ n ++ (".pkl")).toList)) = n := by
  have e : (pfx ++ sep ++ n ++ (".pkl")).toList
      = pfx.toList ++ sep.toList ++ (n.toList ++ (".pkl").toList) := by
    simp [strToList_append, List.append_assoc]
  rw [e, parseModelName_clean sep.toList pfx.toList n.toList hsep hg.1.1
    hg.1.2 hg.2]
  cases n
  rfl

theorem load_cls_fold (pfx : String) :
    ∀ (models : List (String × SkModel)) (b : ModelBank),
      (∀ n ∈ keysOf models, goodName pfx ("_classification_") n) →
      (keysOf models).Nodup →
      (∀ n ∈ keysOf models, n ∉ keysOf b.classification_models) →
      (models.map (fun nm =>
          (pfx ++ ("_classification_") ++ nm.1 ++ (".pkl"),
           FileContent.modelFile nm.2))).foldl
          (fun b f =>
            match f.2 with
            | FileContent.modelFile m =>
              { b with
                  classification_models :=
                    aset b.classification_models
                      (String.mk (parseModelName (("_classification_").toList)
                        (String.toList f.1))) m }
            | FileContent.perfFile _ => b) b
        = { b with
              classification_models := b.classification_models ++ models } := by
  intro models
  induction models with
  | nil =>
    intro b _ _ _
    simp
  | cons m ms ih =>
    intro b hg hn hfresh
    rw [List.map_cons, List.foldl_cons]
    show (ms.map _).foldl _
        { b with
            classification_models :=
              aset b.classification_models
                (String.mk (parseModelName (("_classification_").toList)
                  (String.toList (pfx ++ ("_classification_") ++ m.1
                    ++ (".pkl"))))) m.2 }
      = _
    rw [parse_fname pfx ("_classification_") m.1 (by decide)
      (hg m.1 (List.mem_cons_self _ _)),
      aset_fresh_append _ _ _ (hfresh m.1 (List.mem_cons_self _ _))]
    rw [ih { b with classification_models := b.classification_models ++ [m] }
      (fun n hn2 => hg n (List.mem_cons.mpr (Or.inr hn2)))
      (List.pairwise_cons.mp hn).2
      (fun n hn2 => by
        show n ∉ keysOf (b.classification_models ++ [m])
        rw [keysOf_append]
        simp only [List.mem_append]
        rintro (hc | hc)
        · exact hfresh n (List.mem_cons.mpr (Or.inr hn2)) hc
        · have he : n = m.1 := by simpa [keysOf] using hc
          exact (List.pairwise_cons.mp hn).1 n hn2 he.symm)]
    simp

theorem load_anom_fold (pfx : String) :
    ∀ (models : List (String × SkModel)) (b : ModelBank),
      (∀ n ∈ keysOf models, goodName pfx ("_anomaly_") n) →
      (keysOf models).Nodup →
      (∀ n ∈ keysOf models, n ∉ keysOf b.anomaly_models) →
      (models.map (fun nm =>
          (pfx ++ ("_anomaly_") ++ nm.1 ++ (".pkl"),
           FileContent.modelFile nm.2))).foldl
          (fun b f =>
            match f.2 with
            | FileContent.modelFile m =>
              { b with
                  anomaly_models :=
                    aset b.anomaly_models
                      (String.mk (parseModelName (("_anomaly_").toList)
                        (String.toList f.1))) m }
            | FileContent.perfFile _ => b) b
        = { b with anomaly_models := b.anomaly_models ++ models } := by
  intro models
  induction models with
  | nil =>
    intro b _ _ _
    simp
  | cons m ms ih =>
    intro b hg hn hfresh
    rw [List.map_cons, List.foldl_cons]
    show (ms.map _).foldl _
        { b with
            anomaly_models :=
              aset b.anomaly_models
                (String.mk (parseModelName (("_anomaly_").toList)
                  (String.toList (pfx ++ ("_anomaly_") ++ m.1
                    ++ (".pkl"))))) m.2 }
      = _
    rw [parse_fname pfx ("_anomaly_") m.1 (by decide)
      (hg m.1 (List.mem_cons_self _ _)),
      aset_fresh_append _ _ _ (hfresh m.1 (List.mem_cons_self _ _))]
    rw [ih { b with anomaly_models := b.anomaly_models ++ [m] }
      (fun n hn2 => hg n (List.mem_cons.mpr (Or.inr hn2)))
      (List.pairwise_cons.mp hn).2
      (fun n hn2 => by
        show n ∉ keysOf (b.anomaly_models ++ [m])
        rw [keysOf_append]
        simp only [List.mem_append]
        rintro (hc | hc)
        · exact hfresh n (List.mem_cons.mpr (Or.inr hn2)) hc
        · have he : n = m.1 := by simpa [keysOf] using hc
          exact (List.pairwise_cons.mp hn).1 n hn2 he.symm)]
    simp

/-- C8 amended: provided every classifier and anomaly-model name parses
cleanly out of its saved filename (no embedded separator token or .pkl —
always true of the source's own model names) and the names are free of
duplicates, load_models applied to a fresh bank and exactly the files
save_models wrote reconstructs the same classification dict, the same
anomaly dict and the same performance report. -/
theorem save_load_roundtrip_good_names :
    ∀ (bank : ModelBank) (pfx : String),
      (keysOf bank.classification_models).Nodup →
      (keysOf bank.anomaly_models).Nodup →
      (∀ n ∈ keysOf bank.classification_models,
        goodName pfx ("_classification_") n) →
      (∀ n ∈ keysOf bank.anomaly_models, goodName pfx ("_anomaly_") n) →
      (load_models emptyBank pfx
          (save_models bank pfx [])).classification_models
        = bank.classification_models ∧
      (load_models emptyBank pfx (save_models bank pfx [])).anomaly_models
        = bank.anomaly_models ∧
      (load_models emptyBank pfx (save_models bank pfx [])).model_performance
        = bank.model_performance := by
  intro bank pfx hn1 hn2 hg1 hg2
  have hC1 : ∀ f ∈ bank.classification_models.map (fun nm =>
      (pfx ++ ("_classification_") ++ nm.1 ++ (".pkl"),
       FileContent.modelFile nm.2)),
      (globMatch (pfx ++ ("_classification_")) f.1) = true := by
    intro f hf
    rcases List.mem_map.mp hf with ⟨nm, _, rfl⟩
    exact globMatch_own pfx ("_classification_") nm.1
  have hC2 : ∀ f ∈ bank.anomaly_models.map (fun nm =>
      (pfx ++ ("_anomaly_") ++ nm.1 ++ (".pkl"),
       FileContent.modelFile nm.2)),
      ¬ ((globMatch (pfx ++ ("_classification_")) f.1) = true) := by
    intro f hf
    rcases List.mem_map.mp hf with ⟨nm, _, rfl⟩
    simp [globMatch_cross_ca pfx nm.1]
  have hA1 : ∀ f ∈ bank.anomaly_models.map (fun nm =>
      (pfx ++ ("_anomaly_") ++ nm.1 ++ (".pkl"),
       FileContent.modelFile nm.2)),
      (globMatch (pfx ++ ("_anomaly_")) f.1) = true := by
    intro f hf
    rcases List.mem_map.mp hf with ⟨nm, _, rfl⟩
    exact globMatch_own pfx ("_anomaly_") nm.1
  have hA2 : ∀ f ∈ bank.classification_models.map (fun nm =>
      (pfx ++ ("_classification_") ++ nm.1 ++ (".pkl"),
       FileContent.modelFile nm.2)),
      ¬ ((globMatch (pfx ++ ("_anomaly_")) f.1) = true) := by
    intro f hf
    rcases List.mem_map.mp hf with ⟨nm, _, rfl⟩
    simp [globMatch_cross_ac pfx nm.1]
  have hload : load_models emptyBank pfx (save_models bank pfx [])
      = { classification_models := bank.classification_models,
          anomaly_models := bank.anomaly_models,
          model_performance := bank.model_performance,
          is_trained := true } := by
    unfold load_models save_models
    rw [List.nil_append]
    simp only [List.filter_append]
    rw [List.filter_eq_self.mpr hC1, List.filter_eq_nil_iff.mpr hC2,
      List.filter_eq_nil_iff.mpr
        (by
          intro f hf
          rcases List.mem_singleton.mp hf with rfl
          simp [globMatch_cls_perf pfx]),
      List.filter_eq_nil_iff.mpr hA2, List.filter_eq_self.mpr hA1,
      List.filter_eq_nil_iff.mpr
        (by
          intro f hf
          rcases List.mem_singleton.mp hf with rfl
          simp [globMatch_anom_perf pfx])]
    simp only [List.append_nil, List.nil_append]
    rw [load_cls_fold pfx bank.classification_models emptyBank hg1 hn1
      (fun n _ => List.not_mem_nil n)]
    rw [load_anom_fold pfx bank.anomaly_models
      { emptyBank with
          classification_models :=
            emptyBank.classification_models ++ bank.classification_models }
      hg2 hn2 (fun n _ => List.not_mem_nil n)]
    rw [alookup_append_right _ _ _
      (by
        intro p hp
        rcases List.mem_append.mp hp with hp | hp
        · rcases List.mem_map.mp hp with ⟨nm, _, rfl⟩
          exact cls_fname_ne_perf pfx nm.1
        · rcases List.mem_map.mp hp with ⟨nm, _, rfl⟩
          exact anom_fname_ne_perf pfx nm.1)]
    rw [alookup, if_pos rfl]
    simp [emptyBank]
  rw [hload]
  exact ⟨rfl, rfl, rfl⟩

/-- C8 counterexample: the save/load round trip does not reconstruct the
saved model names for every bank.  A classifier named a_classification_b is
saved under m_classification_a_classification_b.pkl, and load_models'
name recovery — split on the separator, take element 1, delete .pkl —
returns it under the name a. -/
theorem save_load_name_mangling :
    keysOf (load_models emptyBank ("m")
        (save_models mangledBank ("m") [])).classification_models
      ≠ keysOf mangledBank.classification_models := by
  decide

/-- C8 witness: save_load_roundtrip_good_names at a bank carrying the
source's own classifier, anomaly-model and performance entries under the
default prefix. -/
theorem save_load_roundtrip_witness :
    (keysOf roundtripBank.classification_models).Nodup ∧
    (keysOf roundtripBank.anomaly_models).Nodup ∧
    (∀ n ∈ keysOf roundtripBank.classification_models,
      goodName ("enhanced_models") ("_classification_") n) ∧
    (∀ n ∈ keysOf roundtripBank.anomaly_models,
      goodName ("enhanced_models") ("_anomaly_") n) ∧
    ((load_models emptyBank ("enhanced_models")
        (save_models roundtripBank ("enhanced_models")
          [])).classification_models
      = roundtripBank.classification_models ∧
    (load_models emptyBank ("enhanced_models")
        (save_models roundtripBank ("enhanced_models") [])).anomaly_models
      = roundtripBank.anomaly_models ∧
    (load_models emptyBank ("enhanced_models")
        (save_models roundtripBank ("enhanced_models")
          [])).model_performance
      = roundtripBank.model_performance) :=
  ⟨by decide, by decide, by decide, by decide,
   save_load_roundtrip_good_names roundtripBank ("enhanced_models")
     (by decide) (by decide) (by decide) (by decide)⟩
